import Mathlib

/-!
Verification development for the obsidian-daily-focus plugin core.

Strings are modelled as lists of characters so that the JavaScript string
operations used by the source (split, trim, toLowerCase, substring search,
regular-expression matching) can be given exact executable definitions.
Each definition is a direct translation of the corresponding TypeScript
function; deviations forced by the host language (keyword clashes, explicit
date parameters instead of the ambient clock) are noted at the definition.
-/

namespace DailyFocus

/-- Strings as character lists (JavaScript strings, one char per code point). -/
abbrev Str := List Char

/-- Convert a Lean string literal to the character-list representation. -/
def str (s : String) : Str := s.data

/-- The JavaScript whitespace class: the characters matched by the regex
class backslash-s and removed by String.prototype.trim. -/
def isJsSpace (c : Char) : Bool :=
  c == ' ' || c == '\t' || c == '\n' || c == '\r' ||
  c == '\x0b' || c == '\x0c' ||
  c.val == 0xA0 || c.val == 0x1680 ||
  (0x2000 ≤ c.val && c.val ≤ 0x200A) ||
  c.val == 0x2028 || c.val == 0x2029 ||
  c.val == 0x202F || c.val == 0x205F || c.val == 0x3000 || c.val == 0xFEFF

/-- JavaScript line terminators: the characters NOT matched by the regex
dot metacharacter (without the dotAll flag). -/
def isLineTerm (c : Char) : Bool :=
  c == '\n' || c == '\r' || c.val == 0x2028 || c.val == 0x2029

/-- String.prototype.trim: strip JS whitespace from both ends. -/
def jsTrim (s : Str) : Str :=
  (((s.dropWhile isJsSpace).reverse).dropWhile isJsSpace).reverse

/-- String.prototype.toLowerCase, on the ASCII range used by this plugin. -/
def jsToLower (s : Str) : Str := s.map Char.toLower

/-- String.prototype.toUpperCase, on the ASCII range used by this plugin. -/
def jsToUpper (s : Str) : Str := s.map Char.toUpper

/-- String.prototype.split with separator a single newline character. -/
def splitNl : Str → List Str
  | [] => [[]]
  | c :: rest =>
    if c = '\n' then [] :: splitNl rest
    else
      match splitNl rest with
      | [] => [[c]]
      | l :: ls => (c :: l) :: ls

/-- Does the needle occur at the start of the haystack? (Helper for
String.prototype.includes.) -/
def leadsWith : Str → Str → Bool
  | _, [] => true
  | [], _ :: _ => false
  | a :: as, b :: bs => (a == b) && leadsWith as bs

/-- String.prototype.includes: needle occurs contiguously in haystack. -/
def hasSub (hay needle : Str) : Bool :=
  match hay with
  | [] => leadsWith [] needle
  | c :: t => leadsWith (c :: t) needle || hasSub t needle

/-!
## AgendaDraftModel (src/utils/markdown-utils.ts)
-/

/-- DraftAgenda from src/types (the types module is not present under src;
the shape follows the data-model section of the design notes and every use
site in markdown-utils.ts). -/
structure DraftAgenda where
  focusToday : List Str
  quickWins : List Str
  later : List Str
deriving DecidableEq, Repr

/-- The keys of a DraftAgenda, in Object.keys order. -/
inductive SectKey
  | focusToday
  | quickWins
  | later
deriving DecidableEq, Repr

/-- Append an entry to the named bucket. -/
def pushBucket (ag : DraftAgenda) (k : SectKey) (t : Str) : DraftAgenda :=
  match k with
  | SectKey.focusToday => { ag with focusToday := ag.focusToday ++ [t] }
  | SectKey.quickWins => { ag with quickWins := ag.quickWins ++ [t] }
  | SectKey.later => { ag with later := ag.later ++ [t] }

/-- The switch on section names in parseMarkdownToAgenda: the three
canonical titles open a bucket, anything else yields null. -/
def canonicalSect (name : Str) : Option SectKey :=
  if name = str "Focus today" then some SectKey.focusToday
  else if name = str "Quick wins" then some SectKey.quickWins
  else if name = str "Later" then some SectKey.later
  else none

/-- line.startsWith("## "). -/
def startsWithHH (l : Str) : Bool :=
  match l with
  | '#' :: '#' :: ' ' :: _ => true
  | _ => false

/-- The tail of the task regex after the closing bracket: the JS pattern is
backslash-s star followed by dot plus anchored at the end of the line.  The
greedy whitespace run backtracks just enough for the final group to match at
least one character, and the dot cannot match a line terminator. -/
def matchTaskTail (r : Str) : Option Str :=
  let t := r.dropWhile isJsSpace
  if t.isEmpty then
    match r.getLast? with
    | none => none
    | some c => if isLineTerm c then none else some [c]
  else if t.any isLineTerm then none else some t

/-- PATTERNS.task: a dash, optional whitespace, a bracketed checkbox char
(space, x or X), optional whitespace, then the task text.  Returns the
checkbox character and the raw text group. -/
def matchTask (l : Str) : Option (Char × Str) :=
  match l with
  | '-' :: r1 =>
    match r1.dropWhile isJsSpace with
    | '[' :: c :: ']' :: r3 =>
      if c = ' ' || c = 'x' || c = 'X' then
        (matchTaskTail r3).map (fun t => (c, t))
      else none
    | _ => none
  | _ => none

/-- One loop iteration of parseMarkdownToAgenda.  Returns none when the
loop breaks (a horizontal-rule line), otherwise the updated current section
and agenda. -/
def parseStep (sect : Option SectKey) (ag : DraftAgenda) (line : Str) :
    Option (Option SectKey × DraftAgenda) :=
  if startsWithHH line then
    some (canonicalSect (jsTrim (line.drop 3)), ag)
  else if jsTrim line = str "---" then none
  else
    match sect with
    | some k =>
      match matchTask line with
      | some (_, t) => some (some k, pushBucket ag k (jsTrim t))
      | none => some (some k, ag)
    | none => some (none, ag)

/-- The line loop of parseMarkdownToAgenda. -/
def parseLines : List Str → Option SectKey → DraftAgenda → DraftAgenda
  | [], _, ag => ag
  | l :: ls, sect, ag =>
    match parseStep sect ag l with
    | none => ag
    | some (sect2, ag2) => parseLines ls sect2 ag2

/-- parseMarkdownToAgenda from src/utils/markdown-utils.ts. -/
def parseMarkdownToAgenda (markdown : Str) : DraftAgenda :=
  parseLines (splitNl markdown) none ⟨[], [], []⟩

/-- renderAgendaToMarkdown from src/utils/markdown-utils.ts.  The source's
optional date argument defaults to the ambient clock; the date string is an
explicit parameter here. -/
def renderAgendaToMarkdown (draft : DraftAgenda) (dateStr : Str) : Str :=
  let md1 := str "# Daily Focus — " ++ dateStr ++ str "\n\n"
  let md2 := md1 ++ str "## Focus today\n"
  let md3 := draft.focusToday.foldl (fun m t => m ++ str "- [ ] " ++ t ++ str "\n") md2
  let md4 := if draft.focusToday.isEmpty then md3 ++ str "\n" else md3
  let md5 := md4 ++ str "\n"
  let md6 := md5 ++ str "## Quick wins\n"
  let md7 := draft.quickWins.foldl (fun m t => m ++ str "- [ ] " ++ t ++ str "\n") md6
  let md8 := if draft.quickWins.isEmpty then md7 ++ str "\n" else md7
  let md9 := md8 ++ str "\n"
  let md10 := md9 ++ str "## Later\n"
  let md11 := draft.later.foldl (fun m t => m ++ str "- [ ] " ++ t ++ str "\n") md10
  let md12 := if draft.later.isEmpty then md11 ++ str "\n" else md11
  md12 ++ str "\n"

/-- The resolution variants of a ResolvedItem (from the data model; the
types module is not present under src). -/
inductive Resolution
  | done
  | drop
  | focus_today
  | quick_win
  | later
deriving DecidableEq, Repr

/-- ResolvedItem: a task text, its resolution, and optional context. -/
structure ResolvedItem where
  task : Str
  resolution : Resolution
  context : Option Str
deriving DecidableEq, Repr

/-- The context formatting inside mergeDraftWithResolutions: JS truthiness
makes an absent or empty context leave the task text unchanged. -/
def fmtResolved (r : ResolvedItem) : Str :=
  match r.context with
  | some c => if c.isEmpty then r.task else r.task ++ str " — " ++ c
  | none => r.task

/-- One iteration of the resolution loop in mergeDraftWithResolutions:
filter every bucket by lowercased substring containment, then reinsert
according to the resolution. -/
def applyResolved (merged : DraftAgenda) (resolved : ResolvedItem) : DraftAgenda :=
  let taskLower := jsToLower resolved.task
  let m1 : DraftAgenda :=
    ⟨merged.focusToday.filter (fun t => !(hasSub (jsToLower t) taskLower)),
     merged.quickWins.filter (fun t => !(hasSub (jsToLower t) taskLower)),
     merged.later.filter (fun t => !(hasSub (jsToLower t) taskLower))⟩
  match resolved.resolution with
  | Resolution.done => m1
  | Resolution.drop => m1
  | Resolution.focus_today => { m1 with focusToday := m1.focusToday ++ [fmtResolved resolved] }
  | Resolution.quick_win => { m1 with quickWins := m1.quickWins ++ [fmtResolved resolved] }
  | Resolution.later => { m1 with later := m1.later ++ [fmtResolved resolved] }

/-- mergeDraftWithResolutions from src/utils/markdown-utils.ts. -/
def mergeDraftWithResolutions (draft : DraftAgenda) (resolvedItems : List ResolvedItem) :
    DraftAgenda :=
  match resolvedItems with
  | [] => draft
  | r :: rs => mergeDraftWithResolutions (applyResolved draft r) rs

/-!
## Date utilities (date-utils) and CarryOverTracker (src/main.ts)
-/

/-- Proleptic Gregorian leap-year test, as implemented by the JS Date
object used by parseDate. -/
def isLeap (y : Nat) : Bool :=
  (y % 4 == 0 && y % 100 != 0) || y % 400 == 0

/-- Days in a month (1-12) of a given year. -/
def daysInMonth (y m : Nat) : Nat :=
  if m == 2 then (if isLeap y then 29 else 28)
  else if m == 4 || m == 6 || m == 9 || m == 11 then 30
  else 31

/-- Number of leap years strictly before year y (year 0 is a leap year). -/
def leapsBefore (y : Nat) : Nat :=
  match y with
  | 0 => 0
  | Nat.succ y0 => y0 / 4 - y0 / 100 + y0 / 400 + 1

/-- Days in year y before the first of month m. -/
def daysBeforeMonth (y m : Nat) : Nat :=
  let lp := if isLeap y then 1 else 0
  match m with
  | 1 => 0
  | 2 => 31
  | 3 => 59 + lp
  | 4 => 90 + lp
  | 5 => 120 + lp
  | 6 => 151 + lp
  | 7 => 181 + lp
  | 8 => 212 + lp
  | 9 => 243 + lp
  | 10 => 273 + lp
  | 11 => 304 + lp
  | 12 => 334 + lp
  | _ => 0

/-- A linear day number for a calendar date; differences of day numbers
equal the whole-day differences of the JS Date timestamps that
areConsecutiveDates divides and rounds. -/
def dayNumber (y m d : Nat) : Nat :=
  365 * y + leapsBefore y + daysBeforeMonth y m + (d - 1)

/-- Digit value of an ASCII digit character. -/
def digitVal (c : Char) : Nat := c.toNat - 48

/-- parseDate from date-utils: accept exactly the shape dddd-dd-dd and
reject values the Date constructor would normalize away (such as month 13
or February 30), which the source detects by re-reading the constructed
Date's components.  Returns the (year, month, day) triple. -/
def parseDate (s : Str) : Option (Nat × Nat × Nat) :=
  match s with
  | [c1, c2, c3, c4, '-', c5, c6, '-', c7, c8] =>
    if (c1.isDigit && c2.isDigit && c3.isDigit && c4.isDigit &&
        c5.isDigit && c6.isDigit && c7.isDigit && c8.isDigit) then
      let y := ((digitVal c1 * 10 + digitVal c2) * 10 + digitVal c3) * 10 + digitVal c4
      let m := digitVal c5 * 10 + digitVal c6
      let d := digitVal c7 * 10 + digitVal c8
      if 1 ≤ m && m ≤ 12 && 1 ≤ d && d ≤ daysInMonth y m then some (y, m, d) else none
    else none
  | _ => none

/-- areConsecutiveDates from src/main.ts: both strings parse and the newer
date is exactly one day after the older one. -/
def areConsecutiveDates (newerDateStr olderDateStr : Str) : Bool :=
  match parseDate newerDateStr, parseDate olderDateStr with
  | some (y1, m1, d1), some (y2, m2, d2) =>
    (dayNumber y1 m1 d1 : Int) - (dayNumber y2 m2 d2 : Int) == 1
  | _, _ => false

/-- Collapse every maximal run of JS whitespace into a single space (the
replace with the global whitespace-plus regex in normalizeTaskText). -/
def collapseAux : Str → Bool → Str
  | [], _ => []
  | c :: rest, inRun =>
    if isJsSpace c then
      if inRun then collapseAux rest true else ' ' :: collapseAux rest true
    else c :: collapseAux rest false

/-- The whitespace-collapsing replace of normalizeTaskText. -/
def collapseWs (s : Str) : Str := collapseAux s false

/-- normalizeTaskText from src/main.ts: trim, lowercase, collapse runs of
whitespace. -/
def normalizeTaskText (text : Str) : Str :=
  collapseWs (jsToLower (jsTrim text))

/-- Task from src/types (module not present under src; the shape follows
the data model and the task-parser construction sites).  The source field
named like the Lean sectioning keyword is called sect here. -/
structure Task where
  text : Str
  sect : Str
  complete : Bool
  jiraId : Option Str
deriving DecidableEq, Repr

/-- A daily agenda snapshot as consumed by detectUnclearItems: its date
and extracted tasks. -/
structure DailyAgenda where
  date : Str
  tasks : List Task
deriving DecidableEq, Repr

/-- The per-key streak record of detectUnclearItems. -/
structure Streak where
  count : Nat
  startDate : Str
  text : Str
deriving DecidableEq, Repr

/-- UnclearItem from src/types (module not present under src; shape from
the data model and the construction site in detectUnclearItems). -/
structure UnclearItem where
  task : Str
  source : Str
  reason : Str
  question : Str
deriving DecidableEq, Repr

/-- Lookup in an insertion-ordered association list (JS Map.get). -/
def alGet {β : Type} (m : List (Str × β)) (k : Str) : Option β :=
  match m with
  | [] => none
  | (k2, v) :: rest => if k2 = k then some v else alGet rest k

/-- Update in an insertion-ordered association list (JS Map.set): replace
the value at an existing key in place, else append. -/
def alSet {β : Type} (m : List (Str × β)) (k : Str) (v : β) : List (Str × β) :=
  match m with
  | [] => [(k, v)]
  | (k2, v2) :: rest => if k2 = k then (k2, v) :: rest else (k2, v2) :: alSet rest k v

/-- Decimal rendering of a natural number, as JS template interpolation
of a number. -/
def natToStr (n : Nat) : Str := (Nat.repr n).data

/-- The fixed clarifying question attached to every emitted UnclearItem. -/
def questionText : Str :=
  str "Is this still active? If yes, what’s the next step (or who can own it)?"

/-- The reason string of the all-tasks rule. -/
def reasonAll (count : Nat) : Str :=
  str "Incomplete for " ++ natToStr count ++ str " consecutive days"

/-- The reason string of the Focus-today rule. -/
def reasonFocus (count : Nat) : Str :=
  str "In \"Focus today\" for " ++ natToStr count ++ str " consecutive days without completion"

/-- Build the per-day maps of detectUnclearItems: normalized key to
original text for every incomplete task, and the subset whose section is
exactly "Focus today". -/
def buildDayTasks (tasks : List Task) : List (Str × Str) × List (Str × Str) :=
  tasks.foldl
    (fun acc task =>
      if task.complete then acc
      else
        let key := normalizeTaskText task.text
        let dt2 := alSet acc.1 key task.text
        let dft2 := if task.sect = str "Focus today" then alSet acc.2 key task.text else acc.2
        (dt2, dft2))
    ([], [])

/-- One threshold pass of detectUnclearItems (the two passes differ only in
their day map, threshold and reason wording): rebuild the streak map from
today's entries and emit an UnclearItem the first time a key crosses the
threshold. -/
def streakPass (dailyFolder : Str) (threshold : Nat) (mkReason : Nat → Str)
    (dayMap : List (Str × Str)) (prevStreaks : List (Str × Streak)) (agendaDate : Str)
    (flagged : List Str) (results : List UnclearItem) :
    List (Str × Streak) × List Str × List UnclearItem :=
  dayMap.foldl
    (fun st entry =>
      let key := entry.1
      let text := entry.2
      let prev := alGet prevStreaks key
      let count := match prev with | some s => s.count + 1 | none => 1
      let startDate := match prev with | some s => s.startDate | none => agendaDate
      let next2 := alSet st.1 key ⟨count, startDate, text⟩
      if threshold ≤ count ∧ key ∉ st.2.1 then
        (next2, st.2.1 ++ [key],
         st.2.2 ++ [⟨text, dailyFolder ++ str "/" ++ startDate ++ str ".md",
                     mkReason count, questionText⟩])
      else (next2, st.2.1, st.2.2))
    ([], flagged, results)

/-- The loop state of detectUnclearItems. -/
structure DetectState where
  flagged : List Str
  results : List UnclearItem
  prevDate : Option Str
  streaks : List (Str × Streak)
  focusStreaks : List (Str × Streak)
deriving Repr

/-- One iteration of the snapshot loop of detectUnclearItems: reset both
streak maps on a date gap (the previous date is also checked for JS
truthiness, so an empty previous date skips the reset), build the day maps,
run the two threshold passes, and roll the state forward. -/
def processAgenda (dailyFolder : Str) (st : DetectState) (agenda : DailyAgenda) :
    DetectState :=
  let doReset : Bool :=
    match st.prevDate with
    | some d => !d.isEmpty && !areConsecutiveDates d agenda.date
    | none => false
  let streaks0 := if doReset then [] else st.streaks
  let focusStreaks0 := if doReset then [] else st.focusStreaks
  let day := buildDayTasks agenda.tasks
  let pass1 := streakPass dailyFolder 3 reasonAll day.1 streaks0 agenda.date st.flagged st.results
  let pass2 := streakPass dailyFolder 2 reasonFocus day.2 focusStreaks0 agenda.date pass1.2.1 pass1.2.2
  { flagged := pass2.2.1, results := pass2.2.2, prevDate := some agenda.date,
    streaks := pass1.1, focusStreaks := pass2.1 }

/-- detectUnclearItems from src/main.ts.  The settings folder used to build
the source path is an explicit parameter; the snapshot list is ordered most
recent first by the upstream reader. -/
def detectUnclearItems (dailyFolder : Str) (recentAgendas : List DailyAgenda) :
    List UnclearItem :=
  (recentAgendas.foldl (processAgenda dailyFolder) ⟨[], [], none, [], []⟩).results

/-- The normalized identity of an emitted UnclearItem. -/
def keyOf (u : UnclearItem) : Str := normalizeTaskText u.task


/-!
## Reconciler (src/services/reconciler.ts)

The source mutates ticket objects through aliases: the lookup map holds
spread-copies of the tickets, the matching loop writes hasLinkedPR and
linkedPRNumber through the map, and the classification loop re-reads the
original array elements.  Object identity is modelled by a store of ticket
records: the input tickets occupy indices 0..n-1, their copies occupy
indices n..2n-1, and the ticket map holds store indices.
-/

/-- PullRequest from src/types (module not present under src; shape from
the data model and the github-service construction site). -/
structure PullRequest where
  number : Nat
  title : Str
  url : Str
  jiraId : Option Str
  hilChecksPassing : Option Bool
  hasApproval : Bool
  reviewState : Str
  state : Str
  branch : Option Str
deriving DecidableEq, Repr

/-- JiraTicket from src/types (module not present under src; shape from the
data model and the jira-service construction site, which initializes
hasLinkedPR to false with the comment that the reconciler will set it). -/
structure JiraTicket where
  key : Str
  summary : Str
  status : Str
  url : Str
  hasLinkedPR : Bool
  linkedPRNumber : Option Nat
deriving DecidableEq, Repr

/-- The warning discriminants of ReconciliationWarning. -/
inductive WarningType
  | needs_approval
  | status_mismatch
  | pr_no_ticket
  | ticket_no_pr
deriving DecidableEq, Repr

/-- ReconciliationWarning; the source field named like the Lean keyword
type is called wtype here. -/
structure ReconciliationWarning where
  wtype : WarningType
  message : Str
  prNumber : Option Nat
  jiraKey : Option Str
deriving DecidableEq, Repr

/-- ReconciliationResult from src/types. -/
structure ReconciliationResult where
  matchedPRs : List PullRequest
  matchedTickets : List JiraTicket
  unmatchedPRs : List PullRequest
  unmatchedTickets : List JiraTicket
  warnings : List ReconciliationWarning
deriving DecidableEq, Repr

/-- JS truthiness of an optional string (null and the empty string are
falsy). -/
def strTruthy (o : Option Str) : Bool :=
  match o with
  | some s => !s.isEmpty
  | none => false

/-- Build the ticket map: for the i-th ticket, a spread-copy is allocated
at store index base + i and the uppercased key is mapped to that index
(Map.set semantics, so a duplicate key keeps the later copy). -/
def buildTicketMap (tickets : List JiraTicket) (base : Nat) : List (Str × Nat) :=
  (tickets.enum.foldl
    (fun m p => alSet m (jsToUpper p.2.key) (base + p.1)) [])

/-- checkStatusDiscrepancies from src/services/reconciler.ts, returning the
warnings it pushes, in push order. -/
def checkStatusDiscrepancies (pr : PullRequest) (ticket : JiraTicket) :
    List ReconciliationWarning :=
  (if ticket.status = str "In Review" && !pr.hasApproval then
    [⟨WarningType.needs_approval,
      ticket.key ++ str " is \"In Review\" but PR #" ++ natToStr pr.number ++
        str " needs approval",
      some pr.number, some ticket.key⟩]
  else []) ++
  (if pr.hasApproval && ticket.status = str "In Progress" then
    [⟨WarningType.status_mismatch,
      str "PR #" ++ natToStr pr.number ++ str " is approved but " ++ ticket.key ++
        str " is still \"In Progress\" - consider moving to \"In Review\"",
      some pr.number, some ticket.key⟩]
  else []) ++
  (if pr.hilChecksPassing = some false then
    [⟨WarningType.status_mismatch,
      str "PR #" ++ natToStr pr.number ++ str " (" ++ ticket.key ++
        str ") has failing HIL checks",
      some pr.number, some ticket.key⟩]
  else [])

/-- The mutable state of the PR-matching loop: the object store plus the
accumulating warning and PR lists. -/
structure RecState where
  store : List JiraTicket
  warnings : List ReconciliationWarning
  matchedPRs : List PullRequest
  unmatchedPRs : List PullRequest
deriving Repr

/-- One iteration of the PR loop of reconcile: look the PR's Jira id (when
truthy) up in the ticket map, write the match onto the mapped store object,
or record the PR as unmatched with the appropriate warning wording. -/
def processPR (ticketMap : List (Str × Nat)) (st : RecState) (pr : PullRequest) :
    RecState :=
  if strTruthy pr.jiraId then
    let j := pr.jiraId.getD []
    match alGet ticketMap (jsToUpper j) with
    | some idx =>
      match st.store.get? idx with
      | some t0 =>
        let t1 := { t0 with hasLinkedPR := true, linkedPRNumber := some pr.number }
        { st with
          store := st.store.set idx t1,
          matchedPRs := st.matchedPRs ++ [pr],
          warnings := st.warnings ++ checkStatusDiscrepancies pr t1 }
      | none => st
    | none =>
      { st with
        unmatchedPRs := st.unmatchedPRs ++ [pr],
        warnings := st.warnings ++
          [⟨WarningType.pr_no_ticket,
            str "PR #" ++ natToStr pr.number ++ str " references " ++ j ++
              str " but ticket is not \"In Progress\" or \"In Review\"",
            some pr.number, some j⟩] }
  else
    { st with
      unmatchedPRs := st.unmatchedPRs ++ [pr],
      warnings := st.warnings ++
        [⟨WarningType.pr_no_ticket,
          str "PR #" ++ natToStr pr.number ++ str " \"" ++ pr.title ++
            str "\" has no Jira ticket ID in title",
          some pr.number, none⟩] }

/-- The state after the PR loop of reconcile: the store holds the input
tickets followed by their map copies, and every PR has been processed. -/
def reconcileState (pullRequests : List PullRequest) (tickets : List JiraTicket) :
    RecState :=
  let ticketMap := buildTicketMap tickets tickets.length
  pullRequests.foldl (processPR ticketMap)
    ⟨tickets ++ tickets, [], [], []⟩

/-- The final states of the input ticket objects after reconcile returns
(the first n store slots). -/
def reconcileFinalTickets (pullRequests : List PullRequest) (tickets : List JiraTicket) :
    List JiraTicket :=
  (reconcileState pullRequests tickets).store.take tickets.length

/-- reconcile from src/services/reconciler.ts: run the PR loop, then
classify the original ticket objects by their current hasLinkedPR field,
warning for unmatched tickets whose status is exactly "In Review". -/
def reconcile (pullRequests : List PullRequest) (tickets : List JiraTicket) :
    ReconciliationResult :=
  let st := reconcileState pullRequests tickets
  let fin := st.store.take tickets.length
  let classified :=
    fin.foldl
      (fun acc ticket =>
        if ticket.hasLinkedPR then
          (acc.1 ++ [ticket], acc.2.1, acc.2.2)
        else
          (acc.1, acc.2.1 ++ [ticket],
           acc.2.2 ++
             (if ticket.status = str "In Review" then
               [⟨WarningType.ticket_no_pr,
                 ticket.key ++ str " is \"In Review\" but has no open PR",
                 none, some ticket.key⟩]
             else [])))
      (([], [], []) : List JiraTicket × List JiraTicket × List ReconciliationWarning)
  { matchedPRs := st.matchedPRs,
    matchedTickets := classified.1,
    unmatchedPRs := st.unmatchedPRs,
    unmatchedTickets := classified.2.1,
    warnings := st.warnings ++ classified.2.2 }

/-!
## TaskParser.extractJiraId (src/services/task-parser.ts)
-/

/-- The character class of uppercase ASCII letters in the Jira id regex. -/
def isUpperAZ (c : Char) : Bool := 'A' ≤ c && c ≤ 'Z'

/-- Attempt the letters-dash-digits-bracket body after an opening square
bracket. -/
def jiraBody (rest : Str) : Option Str :=
  let ls := rest.takeWhile isUpperAZ
  let r2 := rest.dropWhile isUpperAZ
  if ls.isEmpty then none
  else
    match r2 with
    | '-' :: r3 =>
      let ds := r3.takeWhile Char.isDigit
      let r4 := r3.dropWhile Char.isDigit
      if ds.isEmpty then none
      else
        match r4 with
        | ']' :: _ => some (ls ++ '-' :: ds)
        | _ => none
    | _ => none

/-- Attempt the Jira id pattern at the current position: an opening square
bracket, one or more uppercase letters, a dash, one or more digits, a
closing square bracket.  Returns the captured group. -/
def jiraMatchAt (s : Str) : Option Str :=
  match s with
  | [] => none
  | c :: rest => if c = '[' then jiraBody rest else none

/-- The leftmost match of the PATTERNS.jiraId regex in a string. -/
def findJiraId : Str → Option Str
  | [] => none
  | c :: rest =>
    match jiraMatchAt (c :: rest) with
    | some r => some r
    | none => findJiraId rest

/-- TaskParser.extractJiraId from src/services/task-parser.ts: the first
bracketed uppercase-letters-dash-digits group, or null. -/
def extractJiraId (text : Str) : Option Str := findJiraId text


/-!
## Concrete inputs used by the counterexamples and witnesses
-/

/-- A pull request whose title carries the Jira id FSW-12. -/
def prFSW12 : PullRequest :=
  ⟨42, str "Fix [FSW-12]", str "https://example/pr/42", some (str "FSW-12"),
   none, false, str "", str "OPEN", none⟩

/-- An in-progress ticket with the lowercased key fsw-12, fresh from the
ticket reader (hasLinkedPR false, linkedPRNumber null). -/
def tkFSW12 : JiraTicket :=
  ⟨str "fsw-12", str "a summary", str "In Progress", str "https://example/fsw-12",
   false, none⟩

/-- An incomplete "Write report" task in the given section. -/
def writeReportTask (sectionTitle : String) : Task :=
  ⟨str "Write report", str sectionTitle, false, none⟩

/-- A one-task snapshot for a given date and section title. -/
def writeReportSnap (d : String) (sectionTitle : String) : DailyAgenda :=
  ⟨str d, [writeReportTask sectionTitle]⟩

/-!
## Theorems
-/

/-- Claim C1 (code bug evaluation): with one PR carrying jiraId FSW-12 and
one fresh ticket keyed fsw-12, reconcile matches the PR (it lands in
matchedPRs and no pr_no_ticket warning is emitted for it) yet returns an
empty matchedTickets list, and the ticket appears in unmatchedTickets with
hasLinkedPR still false and linkedPRNumber still null: the match is written
onto the discarded map copy, never onto the object the classification loop
reads. -/
theorem reconcile_match_lost_on_copy :
    (reconcile [prFSW12] [tkFSW12]).matchedPRs = [prFSW12] ∧
    (reconcile [prFSW12] [tkFSW12]).matchedTickets = [] ∧
    (reconcile [prFSW12] [tkFSW12]).unmatchedTickets = [tkFSW12] ∧
    tkFSW12.hasLinkedPR = false ∧ tkFSW12.linkedPRNumber = none := by
  refine ⟨?_, ?_, ?_, ?_, ?_⟩ <;> decide

lemma alSet_forall_val {β : Type} (P : β → Prop) (m : List (Str × β)) (k : Str) (v : β)
    (hm : ∀ p ∈ m, P p.2) (hv : P v) : ∀ p ∈ alSet m k v, P p.2 := by
  induction m with
  | nil => simpa [alSet] using hv
  | cons hd tl ih =>
    intro p hp
    unfold alSet at hp
    by_cases hk : hd.1 = k
    · simp only [hk, if_pos rfl] at hp
      rcases List.mem_cons.mp hp with h | h
      · exact h ▸ hv
      · exact hm p (List.mem_cons_of_mem hd h)
    · simp only [if_neg hk] at hp
      rcases List.mem_cons.mp hp with h | h
      · exact h ▸ hm hd (List.mem_cons_self hd tl)
      · exact ih (fun q hq => hm q (List.mem_cons_of_mem hd hq)) p h

lemma alGet_forall_val {β : Type} (P : β → Prop) (m : List (Str × β)) (k : Str) (v : β)
    (hm : ∀ p ∈ m, P p.2) (h : alGet m k = some v) : P v := by
  induction m with
  | nil => simp [alGet] at h
  | cons hd tl ih =>
    unfold alGet at h
    by_cases hk : hd.1 = k
    · simp only [if_pos hk, Option.some.injEq] at h
      exact h ▸ hm hd (List.mem_cons_self hd tl)
    · simp only [if_neg hk] at h
      exact ih (fun q hq => hm q (List.mem_cons_of_mem hd hq)) h

lemma buildTicketMap_ge (tickets : List JiraTicket) (base : Nat) :
    ∀ p ∈ buildTicketMap tickets base, base ≤ p.2 := by
  unfold buildTicketMap
  have main : ∀ (l : List (Nat × JiraTicket)) (m0 : List (Str × Nat)),
      (∀ p ∈ m0, base ≤ p.2) →
      ∀ p ∈ l.foldl (fun m p => alSet m (jsToUpper p.2.key) (base + p.1)) m0, base ≤ p.2 := by
    intro l
    induction l with
    | nil => intro m0 h0; simpa using h0
    | cons hd tl ih =>
      intro m0 h0
      simp only [List.foldl_cons]
      exact ih _ (alSet_forall_val _ _ _ _ h0 (Nat.le_add_right _ _))
  exact main _ [] (by simp)

lemma take_set_of_ge {α : Type} :
    ∀ (l : List α) (n i : Nat) (x : α), n ≤ i → (l.set i x).take n = l.take n := by
  intro l
  induction l with
  | nil => intro n i x _; simp
  | cons hd tl ih =>
    intro n i x hni
    cases i with
    | zero =>
      have : n = 0 := Nat.le_zero.mp hni
      simp [this]
    | succ i0 =>
      cases n with
      | zero => simp
      | succ n0 =>
        simp only [List.set_cons_succ, List.take_succ_cons]
        rw [ih n0 i0 x (Nat.le_of_succ_le_succ hni)]

lemma processPR_store_take (ticketMap : List (Str × Nat)) (n : Nat)
    (hmap : ∀ p ∈ ticketMap, n ≤ p.2) (st : RecState) (pr : PullRequest) :
    (processPR ticketMap st pr).store.take n = st.store.take n := by
  unfold processPR
  by_cases ht : strTruthy pr.jiraId
  · simp only [if_pos ht]
    cases hidx : alGet ticketMap (jsToUpper (pr.jiraId.getD [])) with
    | none => simp
    | some idx =>
      have hn : n ≤ idx := alGet_forall_val _ _ _ _ hmap hidx
      cases hget : st.store[idx]? with
      | none => simp [hget]
      | some t0 => simp [hget, take_set_of_ge _ _ _ _ hn]
  · simp only [if_neg ht]

lemma reconcileState_store_take (pullRequests : List PullRequest)
    (tickets : List JiraTicket) :
    (reconcileState pullRequests tickets).store.take tickets.length =
      (tickets ++ tickets).take tickets.length := by
  unfold reconcileState
  have hmap := buildTicketMap_ge tickets tickets.length
  have main : ∀ (prs : List PullRequest) (st : RecState),
      (prs.foldl (processPR (buildTicketMap tickets tickets.length)) st).store.take
          tickets.length = st.store.take tickets.length := by
    intro prs
    induction prs with
    | nil => intro st; rfl
    | cons hd tl ih =>
      intro st
      simp only [List.foldl_cons]
      rw [ih, processPR_store_take _ _ hmap]
  exact main pullRequests ⟨tickets ++ tickets, [], [], []⟩

/-- Claim C10: reconcile leaves every input ticket object field-for-field
unchanged: after the call the store slots of the input tickets hold exactly
the input records, because the matching loop writes only through map indices
that point at the appended copies. -/
theorem reconcile_preserves_input_tickets
    (pullRequests : List PullRequest) (tickets : List JiraTicket) :
    reconcileFinalTickets pullRequests tickets = tickets := by
  unfold reconcileFinalTickets
  rw [reconcileState_store_take, List.take_left]


/-- Claim C2 (counterexample): a checked checkbox line under a canonical
heading IS collected by parseMarkdownToAgenda, contradicting the claim that
checked lines contribute no entry. -/
theorem parse_keeps_checked_line_cex :
    parseMarkdownToAgenda (str "## Focus today\n- [x] Done task") =
      ⟨[str "Done task"], [], []⟩ ∧
    (parseMarkdownToAgenda (str "## Focus today\n- [x] Done task")).focusToday ≠ [] :=
  ⟨by decide, by decide⟩

/-- Claim C2 (amended): parseMarkdownToAgenda collects every checkbox line
under an open canonical bucket, checked or unchecked alike; the captured
checkbox character is discarded, so the pushed entry is the trimmed text
regardless of the checkbox state. -/
theorem parse_collects_any_checkbox :
    ∀ (k : SectKey) (ag : DraftAgenda) (line : Str) (cb : Char) (txt : Str),
      startsWithHH line = false → jsTrim line ≠ str "---" →
      matchTask line = some (cb, txt) →
      parseStep (some k) ag line = some (some k, pushBucket ag k (jsTrim txt)) := by
  intro k ag line cb txt h1 h2 h3
  simp [parseStep, h1, h2, h3]

/-- Witness for the amended claim C2, at the checked line of the
counterexample. -/
theorem parse_collects_any_checkbox_witness :
    parseStep (some SectKey.focusToday) ⟨[], [], []⟩ (str "- [x] Done task") =
      some (some SectKey.focusToday,
        pushBucket ⟨[], [], []⟩ SectKey.focusToday (jsTrim (str "Done task"))) :=
  parse_collects_any_checkbox SectKey.focusToday ⟨[], [], []⟩ (str "- [x] Done task")
    'x' (str "Done task") (by decide) (by decide) (by decide)

/-- Claim C4 (counterexample): a checkbox line that appears after a
non-canonical heading IS collected once a canonical heading reappears, so a
non-canonical heading does not close parsing entirely. -/
theorem noncanonical_heading_resumable_cex :
    parseMarkdownToAgenda
        (str "## Quick wins\n## Other stuff\n- [ ] a\n## Focus today\n- [ ] b") =
      ⟨[str "b"], [], []⟩ ∧
    str "b" ∈ (parseMarkdownToAgenda
        (str "## Quick wins\n## Other stuff\n- [ ] a\n## Focus today\n- [ ] b")).focusToday :=
  ⟨by decide, by decide⟩

/-- Claim C4 (amended): only a horizontal-rule line closes parsing
entirely (every line after the first line that trims to three dashes is
ignored); a level-two heading outside the three canonical titles merely
nullifies the current bucket while the scan continues, and a canonical
heading reopens its bucket. -/
theorem rule_closes_heading_only_nullifies :
    (∀ (pre post : List Str) (sect : Option SectKey) (ag : DraftAgenda),
        parseLines (pre ++ str "---" :: post) sect ag = parseLines pre sect ag) ∧
    (∀ (sect : Option SectKey) (ag : DraftAgenda) (line : Str),
        startsWithHH line = true → canonicalSect (jsTrim (line.drop 3)) = none →
        parseStep sect ag line = some (none, ag)) ∧
    (∀ (sect : Option SectKey) (ag : DraftAgenda),
        parseStep sect ag (str "## Focus today") = some (some SectKey.focusToday, ag) ∧
        parseStep sect ag (str "## Quick wins") = some (some SectKey.quickWins, ag) ∧
        parseStep sect ag (str "## Later") = some (some SectKey.later, ag)) := by
  refine ⟨?_, ?_, ?_⟩
  · intro pre
    induction pre with
    | nil => intro post sect ag; rfl
    | cons l ls ih =>
      intro post sect ag
      simp only [List.cons_append, parseLines]
      cases parseStep sect ag l with
      | none => rfl
      | some p => exact ih post p.1 p.2
  · intro sect ag line h1 h2
    simp [parseStep, h1, h2]
  · intro sect ag
    exact ⟨rfl, rfl, rfl⟩

/-- Witness for the amended claim C4: the rule truncation and the
non-canonical heading behavior at concrete inputs. -/
theorem rule_closes_heading_only_nullifies_witness :
    parseLines ([str "- [ ] x"] ++ str "---" :: [str "- [ ] y"])
        (some SectKey.later) ⟨[], [], []⟩ =
      parseLines [str "- [ ] x"] (some SectKey.later) ⟨[], [], []⟩ ∧
    parseStep (some SectKey.later) ⟨[], [], []⟩ (str "## Other") =
      some (none, ⟨[], [], []⟩) :=
  ⟨rule_closes_heading_only_nullifies.1 [str "- [ ] x"] [str "- [ ] y"]
      (some SectKey.later) ⟨[], [], []⟩,
   rule_closes_heading_only_nullifies.2.1 (some SectKey.later) ⟨[], [], []⟩
      (str "## Other") (by decide) (by decide)⟩

/-- Claim C9 (counterexample): an unbracketed Jira-style identifier is NOT
extracted; extractJiraId returns null on text whose identifier lacks square
brackets. -/
theorem extractJiraId_unbracketed_cex :
    extractJiraId (str "Fix FSW-12 now") ≠ some (str "FSW-12") ∧
    extractJiraId (str "Fix FSW-12 now") = none :=
  ⟨by decide, by decide⟩


lemma takeWhile_split (p : Char → Bool) :
    ∀ (l : Str) (c : Char) (r : Str), (∀ x ∈ l, p x = true) → p c = false →
      (l ++ c :: r).takeWhile p = l ∧ (l ++ c :: r).dropWhile p = c :: r := by
  intro l
  induction l with
  | nil => intro c r _ hc; simp [List.takeWhile_cons, List.dropWhile_cons, hc]
  | cons a l ih =>
    intro c r hl hc
    have ha : p a = true := hl a (List.mem_cons_self a l)
    have := ih c r (fun x hx => hl x (List.mem_cons_of_mem a hx)) hc
    simp [List.takeWhile_cons, List.dropWhile_cons, ha, this.1, this.2]

lemma jiraBody_exact (ls ds post : Str) (hls : ls ≠ [])
    (hlsAZ : ∀ c ∈ ls, isUpperAZ c = true) (hds : ds ≠ [])
    (hdsD : ∀ c ∈ ds, c.isDigit = true) :
    jiraBody (ls ++ '-' :: (ds ++ ']' :: post)) = some (ls ++ '-' :: ds) := by
  have h1 := takeWhile_split isUpperAZ ls '-' (ds ++ ']' :: post) hlsAZ (by decide)
  have h2 := takeWhile_split Char.isDigit ds ']' post hdsD (by decide)
  have hlsE : ls.isEmpty = false := by cases ls with
    | nil => exact absurd rfl hls
    | cons a l => rfl
  have hdsE : ds.isEmpty = false := by cases ds with
    | nil => exact absurd rfl hds
    | cons a l => rfl
  unfold jiraBody
  simp [h1.1, h1.2, h2.1, h2.2, hlsE, hdsE]

lemma findJiraId_cons_not_bracket (c : Char) (s : Str) (hc : c ≠ '[') :
    findJiraId (c :: s) = findJiraId s := by
  simp [findJiraId, jiraMatchAt, hc]

lemma findJiraId_append_no_bracket (pre s : Str) (hpre : ∀ c ∈ pre, c ≠ '[') :
    findJiraId (pre ++ s) = findJiraId s := by
  induction pre with
  | nil => rfl
  | cons c l ih =>
    rw [List.cons_append,
      findJiraId_cons_not_bracket c (l ++ s) (hpre c (List.mem_cons_self c l))]
    exact ih (fun x hx => hpre x (List.mem_cons_of_mem c hx))

/-- Claim C9 (amended): extractJiraId extracts a Jira-style identifier only
when it is enclosed in square brackets: the earliest bracketed
uppercase-letters-dash-digits group is returned, and a text containing no
opening bracket always yields null, even when it contains the bare
identifier pattern. -/
theorem extractJiraId_requires_brackets :
    (∀ (pre post ls ds : Str),
        (∀ c ∈ pre, c ≠ '[') → ls ≠ [] → (∀ c ∈ ls, isUpperAZ c = true) →
        ds ≠ [] → (∀ c ∈ ds, c.isDigit = true) →
        extractJiraId (pre ++ '[' :: (ls ++ '-' :: (ds ++ ']' :: post))) =
          some (ls ++ '-' :: ds)) ∧
    (∀ (s : Str), (∀ c ∈ s, c ≠ '[') → extractJiraId s = none) := by
  constructor
  · intro pre post ls ds hpre hls hlsAZ hds hdsD
    unfold extractJiraId
    rw [findJiraId_append_no_bracket pre _ hpre]
    simp [findJiraId, jiraMatchAt, jiraBody_exact ls ds post hls hlsAZ hds hdsD]
  · intro s hs
    unfold extractJiraId
    induction s with
    | nil => rfl
    | cons c l ih =>
      rw [findJiraId_cons_not_bracket c l (hs c (List.mem_cons_self c l))]
      exact ih (fun x hx => hs x (List.mem_cons_of_mem c hx))

/-- Witness for the amended claim C9, at a concrete bracketed id and a
concrete bracket-free text. -/
theorem extractJiraId_requires_brackets_witness :
    extractJiraId (str "see " ++ '[' :: (str "FSW" ++ '-' :: (str "12" ++ ']' :: str " ok"))) =
      some (str "FSW" ++ '-' :: str "12") ∧
    extractJiraId (str "Fix FSW-12 today") = none :=
  ⟨extractJiraId_requires_brackets.1 (str "see ") (str " ok") (str "FSW") (str "12")
      (by decide) (by decide) (by decide) (by decide) (by decide),
   extractJiraId_requires_brackets.2 (str "Fix FSW-12 today") (by decide)⟩

/-- Claim C8: each resolution first filters every bucket by lowercased
substring containment of the resolved task text (so resolving a short text
also removes longer entries containing it), done and drop reinsert nothing,
and the three placement resolutions append the task text, suffixed with an
em-dash-separated context when a non-empty context is present, to the
bucket named by the resolution; the merge folds this step over the
resolution list. -/
theorem merge_removes_then_reinserts :
    (∀ (draft : DraftAgenda) (r : ResolvedItem) (rs : List ResolvedItem),
        mergeDraftWithResolutions draft (r :: rs) =
          mergeDraftWithResolutions (applyResolved draft r) rs) ∧
    (∀ (draft : DraftAgenda) (r : ResolvedItem),
        (applyResolved draft r).focusToday =
          draft.focusToday.filter (fun t => !(hasSub (jsToLower t) (jsToLower r.task))) ++
            (if r.resolution = Resolution.focus_today then [fmtResolved r] else []) ∧
        (applyResolved draft r).quickWins =
          draft.quickWins.filter (fun t => !(hasSub (jsToLower t) (jsToLower r.task))) ++
            (if r.resolution = Resolution.quick_win then [fmtResolved r] else []) ∧
        (applyResolved draft r).later =
          draft.later.filter (fun t => !(hasSub (jsToLower t) (jsToLower r.task))) ++
            (if r.resolution = Resolution.later then [fmtResolved r] else [])) ∧
    (∀ (rz : Resolution) (task c : Str), c ≠ [] →
        fmtResolved ⟨task, rz, some c⟩ = task ++ str " — " ++ c) ∧
    (∀ (rz : Resolution) (task : Str), fmtResolved ⟨task, rz, none⟩ = task) ∧
    mergeDraftWithResolutions ⟨[str "Fix bug in parser"], [], []⟩
        [⟨str "Fix bug", Resolution.done, none⟩] = ⟨[], [], []⟩ := by
  refine ⟨?_, ?_, ?_, ?_, ?_⟩
  · intro draft r rs; rfl
  · intro draft r
    cases hr : r.resolution <;> simp [applyResolved, hr]
  · intro rz task c hc
    cases c with
    | nil => exact absurd rfl hc
    | cons a l => rfl
  · intro rz task; rfl
  · decide

/-- Witness for claim C8, at a concrete resolution with non-empty
context. -/
theorem merge_removes_then_reinserts_witness :
    fmtResolved ⟨str "Ping Bob", Resolution.later, some (str "waiting on review")⟩ =
      str "Ping Bob" ++ str " — " ++ str "waiting on review" :=
  merge_removes_then_reinserts.2.2.1 Resolution.later (str "Ping Bob")
    (str "waiting on review") (by decide)


/-- Claim C6: whenever a previous date was recorded (and, being a date, is
non-empty) and the current snapshot's date is not exactly one calendar day
after it backwards in the walk, processAgenda behaves exactly as if both
streak maps were empty - every in-flight streak, of any key, is discarded
before the day is counted; consequently the 2024-01-03 / 2024-01-01 pair
with an incomplete "Write report" on both days yields no UnclearItem. -/
theorem gap_resets_all_streaks :
    (∀ (dailyFolder : Str) (st : DetectState) (agenda : DailyAgenda) (d : Str),
        st.prevDate = some d → d ≠ [] →
        areConsecutiveDates d agenda.date = false →
        processAgenda dailyFolder st agenda =
          processAgenda dailyFolder
            ⟨st.flagged, st.results, st.prevDate, [], []⟩ agenda) ∧
    detectUnclearItems (str "Daily")
        [writeReportSnap "2024-01-03" "Misc", writeReportSnap "2024-01-01" "Misc"] = [] := by
  constructor
  · intro dailyFolder st agenda d h1 h2 h3
    have hE : d.isEmpty = false := by
      cases d with
      | nil => exact absurd rfl h2
      | cons a l => rfl
    simp [processAgenda, h1, hE, h3]
  · decide

/-- Witness for claim C6: the reset equation at a concrete state carrying a
live streak for an unrelated key, across a two-day gap. -/
theorem gap_resets_all_streaks_witness :
    processAgenda (str "Daily")
        ⟨[], [], some (str "2024-01-01"),
         [(str "ship release", ⟨1, str "2024-01-01", str "Ship release"⟩)],
         [(str "ship release", ⟨1, str "2024-01-01", str "Ship release"⟩)]⟩
        (writeReportSnap "2024-01-05" "Misc") =
      processAgenda (str "Daily")
        ⟨[], [], some (str "2024-01-01"), [], []⟩
        (writeReportSnap "2024-01-05" "Misc") :=
  gap_resets_all_streaks.1 (str "Daily")
    ⟨[], [], some (str "2024-01-01"),
     [(str "ship release", ⟨1, str "2024-01-01", str "Ship release"⟩)],
     [(str "ship release", ⟨1, str "2024-01-01", str "Ship release"⟩)]⟩
    (writeReportSnap "2024-01-05" "Misc") (str "2024-01-01") rfl
    (by decide) (by decide)

lemma streakPass_foldl_inv (dailyFolder : Str) (threshold : Nat) (mkReason : Nat → Str)
    (prevStreaks : List (Str × Streak)) (agendaDate : Str) :
    ∀ (m : List (Str × Str)), (∀ p ∈ m, normalizeTaskText p.2 = p.1) →
    ∀ (acc : List (Str × Streak) × List Str × List UnclearItem),
      (∀ u ∈ acc.2.2, keyOf u ∈ acc.2.1) → (acc.2.2.map keyOf).Nodup →
      (∀ u ∈ (m.foldl
          (fun st entry =>
            let key := entry.1
            let text := entry.2
            let prev := alGet prevStreaks key
            let count := match prev with | some s => s.count + 1 | none => 1
            let startDate := match prev with | some s => s.startDate | none => agendaDate
            let next2 := alSet st.1 key ⟨count, startDate, text⟩
            if threshold ≤ count ∧ key ∉ st.2.1 then
              (next2, st.2.1 ++ [key],
               st.2.2 ++ [⟨text, dailyFolder ++ str "/" ++ startDate ++ str ".md",
                           mkReason count, questionText⟩])
            else (next2, st.2.1, st.2.2)) acc).2.2,
        keyOf u ∈ (m.foldl
          (fun st entry =>
            let key := entry.1
            let text := entry.2
            let prev := alGet prevStreaks key
            let count := match prev with | some s => s.count + 1 | none => 1
            let startDate := match prev with | some s => s.startDate | none => agendaDate
            let next2 := alSet st.1 key ⟨count, startDate, text⟩
            if threshold ≤ count ∧ key ∉ st.2.1 then
              (next2, st.2.1 ++ [key],
               st.2.2 ++ [⟨text, dailyFolder ++ str "/" ++ startDate ++ str ".md",
                           mkReason count, questionText⟩])
            else (next2, st.2.1, st.2.2)) acc).2.1) ∧
      ((m.foldl
          (fun st entry =>
            let key := entry.1
            let text := entry.2
            let prev := alGet prevStreaks key
            let count := match prev with | some s => s.count + 1 | none => 1
            let startDate := match prev with | some s => s.startDate | none => agendaDate
            let next2 := alSet st.1 key ⟨count, startDate, text⟩
            if threshold ≤ count ∧ key ∉ st.2.1 then
              (next2, st.2.1 ++ [key],
               st.2.2 ++ [⟨text, dailyFolder ++ str "/" ++ startDate ++ str ".md",
                           mkReason count, questionText⟩])
            else (next2, st.2.1, st.2.2)) acc).2.2.map keyOf).Nodup := by
  intro m
  induction m with
  | nil => intro _ acc h1 h2; exact ⟨h1, h2⟩
  | cons hd tl ih =>
    intro hwf acc h1 h2
    simp only [List.foldl_cons]
    have hhd : normalizeTaskText hd.2 = hd.1 := hwf hd (List.mem_cons_self hd tl)
    have hwf' : ∀ p ∈ tl, normalizeTaskText p.2 = p.1 :=
      fun p hp => hwf p (List.mem_cons_of_mem hd hp)
    by_cases hc : threshold ≤ (match alGet prevStreaks hd.1 with
        | some s => s.count + 1 | none => 1) ∧ hd.1 ∉ acc.2.1
    · refine ih hwf' _ ?_ ?_
      · intro u hu
        simp only [if_pos hc] at hu ⊢
        rcases List.mem_append.mp hu with h | h
        · exact List.mem_append.mpr (Or.inl (h1 u h))
        · simp only [List.mem_singleton] at h
          subst h
          exact List.mem_append.mpr (Or.inr (by simp [keyOf, hhd]))
      · simp only [if_pos hc, List.map_append]
        rw [List.nodup_append]
        refine ⟨h2, by simp, ?_⟩
        intro k hk hk2
        simp only [List.map_cons, List.map_nil, List.mem_singleton] at hk2
        subst hk2
        rcases List.mem_map.mp hk with ⟨u, hu, hku⟩
        have : keyOf u ∈ acc.2.1 := h1 u hu
        rw [hku] at this
        simp only [keyOf, hhd] at this
        exact hc.2 this
    · refine ih hwf' _ ?_ ?_
      · intro u hu
        simp only [if_neg hc] at hu ⊢
        exact h1 u hu
      · simp only [if_neg hc]
        exact h2

lemma streakPass_inv (dailyFolder : Str) (threshold : Nat) (mkReason : Nat → Str)
    (dayMap : List (Str × Str)) (prevStreaks : List (Str × Streak)) (agendaDate : Str)
    (flagged : List Str) (results : List UnclearItem)
    (hwf : ∀ p ∈ dayMap, normalizeTaskText p.2 = p.1)
    (h1 : ∀ u ∈ results, keyOf u ∈ flagged)
    (h2 : (results.map keyOf).Nodup) :
    (∀ u ∈ (streakPass dailyFolder threshold mkReason dayMap prevStreaks agendaDate
        flagged results).2.2,
      keyOf u ∈ (streakPass dailyFolder threshold mkReason dayMap prevStreaks agendaDate
        flagged results).2.1) ∧
    ((streakPass dailyFolder threshold mkReason dayMap prevStreaks agendaDate
        flagged results).2.2.map keyOf).Nodup := by
  unfold streakPass
  exact streakPass_foldl_inv dailyFolder threshold mkReason prevStreaks agendaDate
    dayMap hwf ([], flagged, results) h1 h2

lemma alSet_forall_pair {β : Type} (P : Str × β → Prop) (m : List (Str × β)) (k : Str)
    (v : β) (hm : ∀ p ∈ m, P p) (hv : ∀ k2, k2 = k → P (k2, v)) :
    ∀ p ∈ alSet m k v, P p := by
  induction m with
  | nil => simpa [alSet] using hv k rfl
  | cons hd tl ih =>
    intro p hp
    unfold alSet at hp
    by_cases hk : hd.1 = k
    · simp only [hk, if_pos rfl] at hp
      rcases List.mem_cons.mp hp with h | h
      · exact h ▸ hv k rfl
      · exact hm p (List.mem_cons_of_mem hd h)
    · simp only [if_neg hk] at hp
      rcases List.mem_cons.mp hp with h | h
      · exact h ▸ hm hd (List.mem_cons_self hd tl)
      · exact ih (fun q hq => hm q (List.mem_cons_of_mem hd hq)) p h

lemma buildDayTasks_wf (tasks : List Task) :
    (∀ p ∈ (buildDayTasks tasks).1, normalizeTaskText p.2 = p.1) ∧
    (∀ p ∈ (buildDayTasks tasks).2, normalizeTaskText p.2 = p.1) := by
  unfold buildDayTasks
  have main : ∀ (l : List Task) (acc : List (Str × Str) × List (Str × Str)),
      (∀ p ∈ acc.1, normalizeTaskText p.2 = p.1) →
      (∀ p ∈ acc.2, normalizeTaskText p.2 = p.1) →
      (∀ p ∈ (l.foldl
          (fun acc task =>
            if task.complete then acc
            else
              let key := normalizeTaskText task.text
              let dt2 := alSet acc.1 key task.text
              let dft2 := if task.sect = str "Focus today" then alSet acc.2 key task.text
                else acc.2
              (dt2, dft2)) acc).1, normalizeTaskText p.2 = p.1) ∧
      (∀ p ∈ (l.foldl
          (fun acc task =>
            if task.complete then acc
            else
              let key := normalizeTaskText task.text
              let dt2 := alSet acc.1 key task.text
              let dft2 := if task.sect = str "Focus today" then alSet acc.2 key task.text
                else acc.2
              (dt2, dft2)) acc).2, normalizeTaskText p.2 = p.1) := by
    intro l
    induction l with
    | nil => intro acc h1 h2; exact ⟨h1, h2⟩
    | cons hd tl ih =>
      intro acc h1 h2
      simp only [List.foldl_cons]
      by_cases hcp : hd.complete
      · simp only [if_pos hcp]
        exact ih acc h1 h2
      · simp only [if_neg hcp]
        refine ih _ ?_ ?_
        · exact alSet_forall_pair _ _ _ _ h1 (fun k2 hk2 => by simp [hk2])
        · by_cases hs : hd.sect = str "Focus today"
          · simp only [if_pos hs]
            exact alSet_forall_pair _ _ _ _ h2 (fun k2 hk2 => by simp [hk2])
          · simp only [if_neg hs]
            exact h2
  exact main tasks ([], []) (by simp) (by simp)

lemma processAgenda_inv (dailyFolder : Str) (st : DetectState) (agenda : DailyAgenda)
    (h1 : ∀ u ∈ st.results, keyOf u ∈ st.flagged)
    (h2 : (st.results.map keyOf).Nodup) :
    (∀ u ∈ (processAgenda dailyFolder st agenda).results,
      keyOf u ∈ (processAgenda dailyFolder st agenda).flagged) ∧
    ((processAgenda dailyFolder st agenda).results.map keyOf).Nodup := by
  have hwf := buildDayTasks_wf agenda.tasks
  unfold processAgenda
  have p1 := streakPass_inv dailyFolder 3 reasonAll (buildDayTasks agenda.tasks).1
    (if (match st.prevDate with
        | some d => !d.isEmpty && !areConsecutiveDates d agenda.date
        | none => false) then [] else st.streaks)
    agenda.date st.flagged st.results hwf.1 h1 h2
  have p2 := streakPass_inv dailyFolder 2 reasonFocus (buildDayTasks agenda.tasks).2
    (if (match st.prevDate with
        | some d => !d.isEmpty && !areConsecutiveDates d agenda.date
        | none => false) then [] else st.focusStreaks)
    agenda.date _ _ hwf.2 p1.1 p1.2
  exact p2

/-- Claim C7: across an entire detection run, at most one UnclearItem is
emitted per normalized task key - the normalized keys of the returned list
are pairwise distinct, regardless of how often a key crosses the three-day
all-tasks threshold or the two-day Focus-today threshold. -/
theorem at_most_one_unclear_per_key (dailyFolder : Str)
    (recentAgendas : List DailyAgenda) :
    ((detectUnclearItems dailyFolder recentAgendas).map keyOf).Nodup := by
  unfold detectUnclearItems
  have main : ∀ (l : List DailyAgenda) (st : DetectState),
      (∀ u ∈ st.results, keyOf u ∈ st.flagged) → (st.results.map keyOf).Nodup →
      ((l.foldl (processAgenda dailyFolder) st).results.map keyOf).Nodup := by
    intro l
    induction l with
    | nil => intro st _ h2; exact h2
    | cons hd tl ih =>
      intro st h1 h2
      simp only [List.foldl_cons]
      have h := processAgenda_inv dailyFolder st hd h1 h2
      exact ih _ h.1 h.2
  exact main recentAgendas ⟨[], [], none, [], []⟩ (by simp) (by simp)


lemma splitNl_append_nl (a b : Str) (ha : '\n' ∉ a) :
    splitNl (a ++ '\n' :: b) = a :: splitNl b := by
  induction a with
  | nil => simp [splitNl]
  | cons c a ih =>
    have hc : c ≠ '\n' := fun h => ha (h ▸ List.mem_cons_self c a)
    have ih2 := ih (fun h => ha (List.mem_cons_of_mem c h))
    simp [splitNl, hc, ih2]

lemma splitNl_units :
    ∀ (units : List Str), (∀ u ∈ units, '\n' ∉ u) →
      splitNl ((units.map (fun u => u ++ ['\n'])).flatten) = units ++ [[]] := by
  intro units
  induction units with
  | nil => intro _; rfl
  | cons u us ih =>
    intro h
    simp only [List.map_cons, List.flatten_cons, List.append_assoc, List.cons_append,
      List.nil_append]
    rw [splitNl_append_nl u _ (h u (List.mem_cons_self u us))]
    rw [ih (fun x hx => h x (List.mem_cons_of_mem u hx))]

lemma foldl_render_tasks (ts : List Str) :
    ∀ (m0 : Str), ts.foldl (fun m t => m ++ str "- [ ] " ++ t ++ str "\n") m0 =
      m0 ++ ((ts.map (fun t => (str "- [ ] " ++ t) ++ ['\n'])).flatten) := by
  induction ts with
  | nil => intro m0; simp
  | cons t ts ih =>
    intro m0
    simp only [List.foldl_cons, List.map_cons, List.flatten_cons, ih]
    simp [List.append_assoc]
    rfl

lemma dropWhile_append_last (p : Char → Bool) (l : Str) (c : Char) (hc : p c = false) :
    (l ++ [c]).dropWhile p = l.dropWhile p ++ [c] := by
  induction l with
  | nil => simp [List.dropWhile_cons, hc]
  | cons a l ih =>
    by_cases ha : p a
    · simp [List.dropWhile_cons, ha, ih]
    · simp [List.dropWhile_cons, ha]

lemma head_jsTrim (c : Char) (s : Str) (hc : isJsSpace c = false) :
    jsTrim (c :: s) = c :: ((s.reverse).dropWhile isJsSpace).reverse := by
  unfold jsTrim
  rw [List.dropWhile_cons, hc]
  simp only [Bool.false_eq_true, if_false]
  rw [List.reverse_cons, dropWhile_append_last isJsSpace s.reverse c hc,
    List.reverse_append]
  rfl

lemma jsTrim_ne_rule (c : Char) (s : Str) (hc : isJsSpace c = false) (hcd : c ≠ '-') :
    jsTrim (c :: s) ≠ str "---" := by
  rw [head_jsTrim c s hc]
  have hlit : str "---" = '-' :: '-' :: '-' :: [] := rfl
  rw [hlit]
  intro h
  have h1 := congrArg List.head? h
  simp at h1
  exact hcd h1

lemma dropWhile_length_eq (p : Char → Bool) :
    ∀ (l : Str), (l.dropWhile p).length = l.length → l.dropWhile p = l := by
  intro l
  induction l with
  | nil => intro _; rfl
  | cons c r ih =>
    intro h
    rw [List.dropWhile_cons] at h ⊢
    by_cases hc : p c
    · simp only [hc, if_true] at h
      have := (List.dropWhile_sublist (l := r) p).length_le
      have hlen : (c :: r).length = r.length + 1 := rfl
      omega
    · simp [hc]

lemma dropWhile_head_false (p : Char → Bool) (c : Char) (r : Str)
    (h : (c :: r).dropWhile p = c :: r) : p c = false := by
  by_cases hc : p c
  · rw [List.dropWhile_cons, if_pos hc] at h
    have h2 := congrArg List.length h
    have := (List.dropWhile_sublist (l := r) p).length_le
    simp at h2
    omega
  · exact Bool.of_not_eq_true hc

lemma jsTrim_eq_self_parts (t : Str) (h : jsTrim t = t) :
    t.dropWhile isJsSpace = t ∧ (t.reverse).dropWhile isJsSpace = t.reverse := by
  have hlen1 : (t.dropWhile isJsSpace).length ≤ t.length :=
    (List.dropWhile_sublist isJsSpace).length_le
  have hform : jsTrim t =
      (((t.dropWhile isJsSpace).reverse).dropWhile isJsSpace).reverse := rfl
  have hlen2 :
      ((((t.dropWhile isJsSpace).reverse).dropWhile isJsSpace).reverse).length ≤
        (t.dropWhile isJsSpace).length := by
    simpa using (List.dropWhile_sublist (l := (t.dropWhile isJsSpace).reverse)
      isJsSpace).length_le
  have hteq : (jsTrim t).length = t.length := by rw [h]
  rw [hform] at hteq
  have hfront : t.dropWhile isJsSpace = t := by
    apply dropWhile_length_eq
    omega
  constructor
  · exact hfront
  · have : ((t.reverse).dropWhile isJsSpace).reverse = t := by
      have := h
      unfold jsTrim at this
      rwa [hfront] at this
    calc (t.reverse).dropWhile isJsSpace
        = (((t.reverse).dropWhile isJsSpace).reverse).reverse := by
          rw [List.reverse_reverse]
      _ = t.reverse := by rw [this]

lemma jsTrim_noop (s : Str) (hh : s.dropWhile isJsSpace = s)
    (hl : (s.reverse).dropWhile isJsSpace = s.reverse) : jsTrim s = s := by
  unfold jsTrim
  rw [hh, hl, List.reverse_reverse]


lemma render_units (d : DraftAgenda) (date : Str) :
    renderAgendaToMarkdown d date =
      (List.map (fun u => u ++ ['\n'])
        ((str "# Daily Focus — " ++ date) ::
         ([] : Str) ::
         str "## Focus today" ::
         (d.focusToday.map (fun t => str "- [ ] " ++ t) ++
          (if d.focusToday.isEmpty then [([] : Str)] else []) ++
          (([] : Str) ::
           str "## Quick wins" ::
           (d.quickWins.map (fun t => str "- [ ] " ++ t) ++
            (if d.quickWins.isEmpty then [([] : Str)] else []) ++
            (([] : Str) ::
             str "## Later" ::
             (d.later.map (fun t => str "- [ ] " ++ t) ++
              (if d.later.isEmpty then [([] : Str)] else []) ++
              [([] : Str)]))))))).flatten := by
  have hNN : str "\n\n" = '\n' :: '\n' :: [] := rfl
  have hN : str "\n" = ['\n'] := rfl
  have hFT : str "## Focus today\n" = str "## Focus today" ++ ['\n'] := rfl
  have hQW : str "## Quick wins\n" = str "## Quick wins" ++ ['\n'] := rfl
  have hLT : str "## Later\n" = str "## Later" ++ ['\n'] := rfl
  simp only [renderAgendaToMarkdown]
  rw [foldl_render_tasks, foldl_render_tasks, foldl_render_tasks]
  obtain ⟨ft, qw, lt⟩ := d
  cases ft <;> cases qw <;> cases lt <;>
    simp [hNN, hN, hFT, hQW, hLT, List.map_append, List.map_cons, List.map_map,
      List.flatten_append, List.flatten_cons, List.append_assoc, Function.comp,
      Function.comp_def]


lemma dropWhile_cons_false (p : Char → Bool) (c : Char) (s : Str) (hc : p c = false) :
    (c :: s).dropWhile p = c :: s := by
  simp [List.dropWhile_cons, hc]

lemma parseStep_skip (sect : Option SectKey) (ag : DraftAgenda) (line : Str)
    (h1 : startsWithHH line = false) (h2 : jsTrim line ≠ str "---")
    (h3 : matchTask line = none) : parseStep sect ag line = some (sect, ag) := by
  cases sect <;> simp [parseStep, h1, h2, h3]

lemma parseLines_cons (l : Str) (rest : List Str) (sect sect2 : Option SectKey)
    (ag ag2 : DraftAgenda) (h : parseStep sect ag l = some (sect2, ag2)) :
    parseLines (l :: rest) sect ag = parseLines rest sect2 ag2 := by
  simp [parseLines, h]

lemma parseStep_header (sect : Option SectKey) (ag : DraftAgenda) (date : Str) :
    parseStep sect ag (str "# Daily Focus — " ++ date) = some (sect, ag) := by
  apply parseStep_skip
  · rfl
  · exact jsTrim_ne_rule '#' _ (by decide) (by decide)
  · rfl

lemma parseStep_empty (sect : Option SectKey) (ag : DraftAgenda) :
    parseStep sect ag [] = some (sect, ag) := by
  apply parseStep_skip
  · rfl
  · decide
  · rfl

lemma parseStep_focus_heading (sect : Option SectKey) (ag : DraftAgenda) :
    parseStep sect ag (str "## Focus today") = some (some SectKey.focusToday, ag) := rfl

lemma parseStep_quickwins_heading (sect : Option SectKey) (ag : DraftAgenda) :
    parseStep sect ag (str "## Quick wins") = some (some SectKey.quickWins, ag) := rfl

lemma parseStep_later_heading (sect : Option SectKey) (ag : DraftAgenda) :
    parseStep sect ag (str "## Later") = some (some SectKey.later, ag) := rfl

lemma parseStep_taskline (k : SectKey) (ag : DraftAgenda) (t : Str)
    (h : jsTrim t = t) (hlt : ∀ c ∈ t, isLineTerm c = false) :
    parseStep (some k) ag (str "- [ ] " ++ t) = some (some k, pushBucket ag k t) := by
  cases t with
  | nil => rfl
  | cons a t' =>
    have parts := jsTrim_eq_self_parts _ h
    have ha : isJsSpace a = false := dropWhile_head_false _ _ _ parts.1
    obtain ⟨c0, r0, hc0⟩ : ∃ c0 r0, (a :: t').reverse = c0 :: r0 := by
      cases hrev2 : (a :: t').reverse with
      | nil =>
        have := congrArg List.length hrev2
        simp at this
      | cons x xs => exact ⟨x, xs, rfl⟩
    have hc0f : isJsSpace c0 = false := by
      apply dropWhile_head_false isJsSpace c0 r0
      rw [← hc0]
      exact parts.2
    have hline_trim : jsTrim (str "- [ ] " ++ (a :: t')) = str "- [ ] " ++ (a :: t') := by
      apply jsTrim_noop
      · exact dropWhile_cons_false isJsSpace '-' _ (by decide)
      · rw [List.reverse_append, hc0, List.cons_append]
        exact dropWhile_cons_false isJsSpace c0 _ hc0f
    have hne : jsTrim (str "- [ ] " ++ (a :: t')) ≠ str "---" := by
      rw [hline_trim]
      intro hcontra
      have h2 := congrArg (List.take 2) hcontra
      simp [str] at h2
    have hany : (a :: t').any isLineTerm = false := by
      rw [List.any_eq_false]
      intro c hc
      simp [hlt c hc]
    have hdw : List.dropWhile isJsSpace (' ' :: a :: t') = a :: t' := by
      rw [List.dropWhile_cons]
      simp only [show isJsSpace ' ' = true from rfl, if_true]
      exact dropWhile_cons_false _ _ _ ha
    have htail : matchTaskTail (' ' :: a :: t') = some (a :: t') := by
      simp [matchTaskTail, hdw, hany]
    have hdw2 : List.dropWhile isJsSpace (' ' :: '[' :: ' ' :: ']' :: ' ' :: (a :: t')) =
        '[' :: ' ' :: ']' :: ' ' :: (a :: t') := by
      rw [List.dropWhile_cons]
      simp only [show isJsSpace ' ' = true from rfl, if_true]
      exact dropWhile_cons_false _ _ _ (by decide)
    have hmt : matchTask (str "- [ ] " ++ (a :: t')) = some (' ', a :: t') := by
      show matchTask ('-' :: ' ' :: '[' :: ' ' :: ']' :: ' ' :: (a :: t')) = _
      simp [matchTask, hdw2, htail]
    have hsw : startsWithHH (str "- [ ] " ++ (a :: t')) = false := rfl
    simp [parseStep, hsw, hne, hmt, h]

lemma parseLines_taskblock (k : SectKey) :
    ∀ (ts : List Str), (∀ t ∈ ts, jsTrim t = t ∧ ∀ c ∈ t, isLineTerm c = false) →
    ∀ (ag : DraftAgenda) (rest : List Str),
      parseLines ((ts.map (fun t => str "- [ ] " ++ t)) ++ rest) (some k) ag =
        parseLines rest (some k) (ts.foldl (fun a t => pushBucket a k t) ag) := by
  intro ts
  induction ts with
  | nil => intro _ ag rest; rfl
  | cons t ts ih =>
    intro hts ag rest
    have hh := hts t (List.mem_cons_self t ts)
    simp only [List.map_cons, List.cons_append, List.foldl_cons]
    rw [parseLines_cons _ _ _ _ _ _ (parseStep_taskline k ag t hh.1 hh.2)]
    exact ih (fun x hx => hts x (List.mem_cons_of_mem t hx)) _ _

lemma parseLines_emptyif (b : Bool) (sect : Option SectKey) (ag : DraftAgenda)
    (rest : List Str) :
    parseLines ((if b then [([] : Str)] else []) ++ rest) sect ag =
      parseLines rest sect ag := by
  cases b
  · simp
  · simp only [if_true, List.cons_append, List.nil_append]
    rw [parseLines_cons _ _ _ _ _ _ (parseStep_empty sect ag)]

lemma foldl_pushBucket_focus : ∀ (ts : List Str) (ag : DraftAgenda),
    ts.foldl (fun a t => pushBucket a SectKey.focusToday t) ag =
      ⟨ag.focusToday ++ ts, ag.quickWins, ag.later⟩ := by
  intro ts
  induction ts with
  | nil => intro ag; cases ag; simp
  | cons t ts ih =>
    intro ag
    simp only [List.foldl_cons]
    rw [ih]
    cases ag
    simp [pushBucket]

lemma foldl_pushBucket_quickwins : ∀ (ts : List Str) (ag : DraftAgenda),
    ts.foldl (fun a t => pushBucket a SectKey.quickWins t) ag =
      ⟨ag.focusToday, ag.quickWins ++ ts, ag.later⟩ := by
  intro ts
  induction ts with
  | nil => intro ag; cases ag; simp
  | cons t ts ih =>
    intro ag
    simp only [List.foldl_cons]
    rw [ih]
    cases ag
    simp [pushBucket]

lemma foldl_pushBucket_later : ∀ (ts : List Str) (ag : DraftAgenda),
    ts.foldl (fun a t => pushBucket a SectKey.later t) ag =
      ⟨ag.focusToday, ag.quickWins, ag.later ++ ts⟩ := by
  intro ts
  induction ts with
  | nil => intro ag; cases ag; simp
  | cons t ts ih =>
    intro ag
    simp only [List.foldl_cons]
    rw [ih]
    cases ag
    simp [pushBucket]


lemma mem_emptyif (b : Bool) (u : Str) (hu : u ∈ (if b then [([] : Str)] else [])) :
    u = [] := by
  cases b
  · simp at hu
  · simpa using hu

lemma nl_not_mem_taskline (t : Str) (h : ∀ c ∈ t, isLineTerm c = false) :
    '\n' ∉ (str "- [ ] " ++ t) := by
  intro hm
  rcases List.mem_append.mp hm with h1 | h2
  · exact absurd h1 (by decide)
  · have := h '\n' h2
    simp [isLineTerm] at this

/-- Claim C3 (counterexample): the draft whose single entry is the text a
followed by a trailing space contains no horizontal-rule text and no
heading-prefix text, yet the render-parse round trip returns the entry
trimmed, not the original draft. -/
theorem roundtrip_trim_cex :
    hasSub (str "a ") (str "---") = false ∧
    startsWithHH (str "a ") = false ∧
    parseMarkdownToAgenda
        (renderAgendaToMarkdown ⟨[str "a "], [], []⟩ (str "2024-01-01")) =
      ⟨[str "a"], [], []⟩ ∧
    parseMarkdownToAgenda
        (renderAgendaToMarkdown ⟨[str "a "], [], []⟩ (str "2024-01-01")) ≠
      ⟨[str "a "], [], []⟩ :=
  ⟨by decide, by decide, by decide, by decide⟩

/-- Claim C3 (amended): the render-parse round trip reproduces the draft
for every DraftAgenda whose entries contain no literal three-dash text and
no heading-prefix text, and in addition contain no line-terminator
character and are each equal to their own whitespace trim (parse trims
every captured entry and splits on newlines, so untrimmed or multi-line
entries cannot survive); the date written into the rendered header may be
any newline-free string. -/
theorem parse_render_roundtrip (d : DraftAgenda) (date : Str)
    (hdate : '\n' ∉ date)
    (hsan : ∀ t ∈ d.focusToday ++ d.quickWins ++ d.later,
      jsTrim t = t ∧ (∀ c ∈ t, isLineTerm c = false) ∧
      hasSub t (str "---") = false ∧ startsWithHH t = false) :
    parseMarkdownToAgenda (renderAgendaToMarkdown d date) = d := by
  have hft : ∀ t ∈ d.focusToday, jsTrim t = t ∧ ∀ c ∈ t, isLineTerm c = false := by
    intro t ht
    have := hsan t (List.mem_append.mpr (Or.inl (List.mem_append.mpr (Or.inl ht))))
    exact ⟨this.1, this.2.1⟩
  have hqw : ∀ t ∈ d.quickWins, jsTrim t = t ∧ ∀ c ∈ t, isLineTerm c = false := by
    intro t ht
    have := hsan t (List.mem_append.mpr (Or.inl (List.mem_append.mpr (Or.inr ht))))
    exact ⟨this.1, this.2.1⟩
  have hlt2 : ∀ t ∈ d.later, jsTrim t = t ∧ ∀ c ∈ t, isLineTerm c = false := by
    intro t ht
    have := hsan t (List.mem_append.mpr (Or.inr ht))
    exact ⟨this.1, this.2.1⟩
  have hhdr : '\n' ∉ (str "# Daily Focus — " ++ date) := by
    intro hm
    rcases List.mem_append.mp hm with h1 | h2
    · exact absurd h1 (by decide)
    · exact hdate h2
  unfold parseMarkdownToAgenda
  rw [render_units d date]
  rw [splitNl_units _ ?hmem]
  case hmem =>
    simp only [List.forall_mem_cons, List.forall_mem_append]
    repeat' apply And.intro
    all_goals
      first
      | exact hhdr
      | decide
      | (intro u hu
         first
         | (rcases List.mem_map.mp hu with ⟨t, ht, rfl⟩
            first
            | exact nl_not_mem_taskline t (hft t ht).2
            | exact nl_not_mem_taskline t (hqw t ht).2
            | exact nl_not_mem_taskline t (hlt2 t ht).2)
         | (rw [mem_emptyif _ _ hu]; simp))
  simp only [List.cons_append, List.append_assoc, List.nil_append]
  rw [parseLines_cons _ _ _ _ _ _ (parseStep_header none ⟨[], [], []⟩ date)]
  rw [parseLines_cons _ _ _ _ _ _ (parseStep_empty none ⟨[], [], []⟩)]
  rw [parseLines_cons _ _ _ _ _ _ (parseStep_focus_heading none ⟨[], [], []⟩)]
  rw [parseLines_taskblock SectKey.focusToday d.focusToday hft _ _]
  rw [foldl_pushBucket_focus]
  rw [parseLines_emptyif]
  rw [parseLines_cons _ _ _ _ _ _ (parseStep_empty _ _)]
  rw [parseLines_cons _ _ _ _ _ _ (parseStep_quickwins_heading _ _)]
  rw [parseLines_taskblock SectKey.quickWins d.quickWins hqw _ _]
  rw [foldl_pushBucket_quickwins]
  rw [parseLines_emptyif]
  rw [parseLines_cons _ _ _ _ _ _ (parseStep_empty _ _)]
  rw [parseLines_cons _ _ _ _ _ _ (parseStep_later_heading _ _)]
  rw [parseLines_taskblock SectKey.later d.later hlt2 _ _]
  rw [foldl_pushBucket_later]
  rw [parseLines_emptyif]
  rw [parseLines_cons _ _ _ _ _ _ (parseStep_empty _ _)]
  rw [parseLines_cons _ _ _ _ _ _ (parseStep_empty _ _)]
  simp [parseLines]

/-- Witness for the amended claim C3, at a concrete two-entry draft. -/
theorem parse_render_roundtrip_witness :
    parseMarkdownToAgenda
        (renderAgendaToMarkdown ⟨[str "Write spec"], [], [str "Read [FSW-12]"]⟩
          (str "2024-01-01")) =
      ⟨[str "Write spec"], [], [str "Read [FSW-12]"]⟩ :=
  parse_render_roundtrip ⟨[str "Write spec"], [], [str "Read [FSW-12]"]⟩
    (str "2024-01-01") (by decide) (by decide)


lemma alGet_alSet_self {β : Type} (m : List (Str × β)) (k : Str) (v : β) :
    alGet (alSet m k v) k = some v := by
  induction m with
  | nil => simp [alSet, alGet]
  | cons hd tl ih =>
    by_cases hk : hd.1 = k
    · simp [alSet, alGet, hk]
    · simp [alSet, alGet, hk, ih]

lemma alGet_alSet_other {β : Type} (m : List (Str × β)) (k k2 : Str) (v : β)
    (h : k2 ≠ k) : alGet (alSet m k v) k2 = alGet m k2 := by
  have hne : ¬ k = k2 := fun he => h he.symm
  induction m with
  | nil => simp only [alSet, alGet, if_neg hne]
  | cons hd tl ih =>
    by_cases hk : hd.1 = k
    · have h2 : ¬ hd.1 = k2 := by rw [hk]; exact hne
      simp only [alSet, if_pos hk, alGet, if_neg h2]
    · by_cases hk2 : hd.1 = k2
      · simp only [alSet, if_neg hk, alGet, if_pos hk2]
      · simp only [alSet, if_neg hk, alGet, if_neg hk2]
        exact ih

lemma alSet_key_mem {β : Type} (m : List (Str × β)) (k : Str) (v : β) :
    ∀ x ∈ (alSet m k v).map Prod.fst, x ∈ m.map Prod.fst ∨ x = k := by
  induction m with
  | nil =>
    intro x hx
    simp only [alSet, List.map_cons, List.map_nil] at hx
    rcases List.mem_cons.mp hx with h | h
    · exact Or.inr h
    · simp at h
  | cons hd tl ih =>
    intro x hx
    by_cases hk : hd.1 = k
    · simp only [alSet, if_pos hk, List.map_cons] at hx
      rcases List.mem_cons.mp hx with h | h
      · exact Or.inl (by rw [List.map_cons]; exact List.mem_cons.mpr (Or.inl h))
      · exact Or.inl (by rw [List.map_cons]; exact List.mem_cons.mpr (Or.inr h))
    · simp only [alSet, if_neg hk, List.map_cons] at hx
      rcases List.mem_cons.mp hx with h | h
      · exact Or.inl (by rw [List.map_cons]; exact List.mem_cons.mpr (Or.inl h))
      · rcases ih x h with h2 | h2
        · exact Or.inl (by rw [List.map_cons]; exact List.mem_cons.mpr (Or.inr h2))
        · exact Or.inr h2

lemma alSet_keys_nodup {β : Type} (m : List (Str × β)) (k : Str) (v : β)
    (h : (m.map Prod.fst).Nodup) : ((alSet m k v).map Prod.fst).Nodup := by
  induction m with
  | nil => simp [alSet]
  | cons hd tl ih =>
    rw [List.map_cons, List.nodup_cons] at h
    by_cases hk : hd.1 = k
    · simp only [alSet, if_pos hk, List.map_cons, List.nodup_cons]
      exact ⟨h.1, h.2⟩
    · simp only [alSet, if_neg hk, List.map_cons, List.nodup_cons]
      refine ⟨?_, ih h.2⟩
      intro hmem
      rcases alSet_key_mem tl k v hd.1 hmem with h2 | h2
      · exact h.1 h2
      · exact hk (h2 ▸ rfl)

lemma alGet_none_of_key_not_mem {β : Type} (m : List (Str × β)) (k : Str)
    (h : ∀ p ∈ m, p.1 ≠ k) : alGet m k = none := by
  induction m with
  | nil => rfl
  | cons hd tl ih =>
    simp only [alGet, if_neg (h hd (List.mem_cons_self hd tl))]
    exact ih (fun p hp => h p (List.mem_cons_of_mem hd hp))

lemma alGet_split {β : Type} (m : List (Str × β)) (k : Str) (v : β)
    (h : alGet m k = some v) (hnd : (m.map Prod.fst).Nodup) :
    ∃ m1 m2, m = m1 ++ (k, v) :: m2 ∧ (∀ p ∈ m1, p.1 ≠ k) ∧ (∀ p ∈ m2, p.1 ≠ k) := by
  induction m with
  | nil => simp [alGet] at h
  | cons hd tl ih =>
    rw [List.map_cons, List.nodup_cons] at hnd
    by_cases hk : hd.1 = k
    · refine ⟨[], tl, ?_, by simp, ?_⟩
      · simp only [alGet, if_pos hk, Option.some.injEq] at h
        obtain ⟨k1, v1⟩ := hd
        simp only at hk h
        simp [hk, h]
      · intro p hp hpk
        exact hnd.1 (hk ▸ hpk ▸ List.mem_map_of_mem Prod.fst hp)
    · simp only [alGet, if_neg hk] at h
      obtain ⟨m1, m2, heq, h1, h2⟩ := ih h hnd.2
      exact ⟨hd :: m1, m2, by simp [heq], by
        intro p hp
        rcases List.mem_cons.mp hp with h3 | h3
        · exact h3 ▸ hk
        · exact h1 p h3, h2⟩

lemma buildDayTasks_all_some (k : Str) :
    ∀ (l : List Task) (acc : List (Str × Str) × List (Str × Str)),
      ((∃ task ∈ l, task.complete = false ∧ normalizeTaskText task.text = k) ∨
        (∃ v, alGet acc.1 k = some v)) →
      ∃ v, alGet ((l.foldl
        (fun acc task =>
          if task.complete then acc
          else
            let key := normalizeTaskText task.text
            let dt2 := alSet acc.1 key task.text
            let dft2 := if task.sect = str "Focus today" then alSet acc.2 key task.text
              else acc.2
            (dt2, dft2)) acc).1) k = some v := by
  intro l
  induction l with
  | nil =>
    intro acc h
    rcases h with h | h
    · simp at h
    · exact h
  | cons hd tl ih =>
    intro acc h
    simp only [List.foldl_cons]
    by_cases hcp : hd.complete
    · simp only [if_pos hcp]
      apply ih
      rcases h with ⟨task, hm, hc, hn⟩ | h
      · rcases List.mem_cons.mp hm with h3 | h3
        · have hcf : hd.complete = false := h3 ▸ hc
          rw [hcf] at hcp
          exact absurd hcp (by simp)
        · exact Or.inl ⟨task, h3, hc, hn⟩
      · exact Or.inr h
    · simp only [if_neg hcp]
      apply ih
      by_cases hkey : normalizeTaskText hd.text = k
      · refine Or.inr ⟨hd.text, ?_⟩
        simp only
        rw [hkey]
        exact alGet_alSet_self acc.1 k hd.text
      · rcases h with ⟨task, hm, hc, hn⟩ | h
        · rcases List.mem_cons.mp hm with h3 | h3
          · exact absurd (h3 ▸ hn) hkey
          · exact Or.inl ⟨task, h3, hc, hn⟩
        · obtain ⟨v, hv⟩ := h
          exact Or.inr ⟨v, by
            simp only
            rw [alGet_alSet_other _ _ _ _ (fun he => hkey he.symm)]
            exact hv⟩

lemma buildDayTasks_focus_none (k : Str) :
    ∀ (l : List Task) (acc : List (Str × Str) × List (Str × Str)),
      alGet acc.2 k = none →
      (∀ task ∈ l, task.complete = false → normalizeTaskText task.text = k →
        task.sect ≠ str "Focus today") →
      alGet ((l.foldl
        (fun acc task =>
          if task.complete then acc
          else
            let key := normalizeTaskText task.text
            let dt2 := alSet acc.1 key task.text
            let dft2 := if task.sect = str "Focus today" then alSet acc.2 key task.text
              else acc.2
            (dt2, dft2)) acc).2) k = none := by
  intro l
  induction l with
  | nil => intro acc h _; exact h
  | cons hd tl ih =>
    intro acc h hnf
    simp only [List.foldl_cons]
    by_cases hcp : hd.complete
    · simp only [if_pos hcp]
      exact ih acc h (fun x hx => hnf x (List.mem_cons_of_mem hd hx))
    · simp only [if_neg hcp]
      apply ih
      · by_cases hs : hd.sect = str "Focus today"
        · have hkey : normalizeTaskText hd.text ≠ k := by
            intro hk
            exact hnf hd (List.mem_cons_self hd tl) (Bool.of_not_eq_true hcp) hk hs
          simp only [if_pos hs]
          rw [alGet_alSet_other _ _ _ _ (fun he => hkey he.symm)]
          exact h
        · simp only [if_neg hs]
          exact h
      · exact fun x hx => hnf x (List.mem_cons_of_mem hd hx)

lemma buildDayTasks_keys_nodup (l : List Task) :
    (((buildDayTasks l).1.map Prod.fst).Nodup) := by
  unfold buildDayTasks
  have main : ∀ (l2 : List Task) (acc : List (Str × Str) × List (Str × Str)),
      ((acc.1.map Prod.fst).Nodup) →
      (((l2.foldl
        (fun acc task =>
          if task.complete then acc
          else
            let key := normalizeTaskText task.text
            let dt2 := alSet acc.1 key task.text
            let dft2 := if task.sect = str "Focus today" then alSet acc.2 key task.text
              else acc.2
            (dt2, dft2)) acc).1.map Prod.fst).Nodup) := by
    intro l2
    induction l2 with
    | nil => intro acc h; exact h
    | cons hd tl ih =>
      intro acc h
      simp only [List.foldl_cons]
      by_cases hcp : hd.complete
      · simp only [if_pos hcp]
        exact ih acc h
      · simp only [if_neg hcp]
        exact ih _ (alSet_keys_nodup _ _ _ h)
  exact main l ([], []) (by simp)


lemma streak_fold_kfree (dailyFolder : Str) (threshold : Nat) (mkReason : Nat → Str)
    (prevStreaks : List (Str × Streak)) (agendaDate : Str) (k : Str) :
    ∀ (m : List (Str × Str)), (∀ p ∈ m, p.1 ≠ k) →
      (∀ p ∈ m, normalizeTaskText p.2 = p.1) →
    ∀ (acc : List (Str × Streak) × List Str × List UnclearItem),
      ((m.foldl
          (fun st entry =>
            let key := entry.1
            let text := entry.2
            let prev := alGet prevStreaks key
            let count := match prev with | some s => s.count + 1 | none => 1
            let startDate := match prev with | some s => s.startDate | none => agendaDate
            let next2 := alSet st.1 key ⟨count, startDate, text⟩
            if threshold ≤ count ∧ key ∉ st.2.1 then
              (next2, st.2.1 ++ [key],
               st.2.2 ++ [⟨text, dailyFolder ++ str "/" ++ startDate ++ str ".md",
                           mkReason count, questionText⟩])
            else (next2, st.2.1, st.2.2)) acc).2.2.filter (fun u => keyOf u == k) =
        acc.2.2.filter (fun u => keyOf u == k)) ∧
      ((k ∈ (m.foldl
          (fun st entry =>
            let key := entry.1
            let text := entry.2
            let prev := alGet prevStreaks key
            let count := match prev with | some s => s.count + 1 | none => 1
            let startDate := match prev with | some s => s.startDate | none => agendaDate
            let next2 := alSet st.1 key ⟨count, startDate, text⟩
            if threshold ≤ count ∧ key ∉ st.2.1 then
              (next2, st.2.1 ++ [key],
               st.2.2 ++ [⟨text, dailyFolder ++ str "/" ++ startDate ++ str ".md",
                           mkReason count, questionText⟩])
            else (next2, st.2.1, st.2.2)) acc).2.1) ↔ k ∈ acc.2.1) ∧
      (alGet (m.foldl
          (fun st entry =>
            let key := entry.1
            let text := entry.2
            let prev := alGet prevStreaks key
            let count := match prev with | some s => s.count + 1 | none => 1
            let startDate := match prev with | some s => s.startDate | none => agendaDate
            let next2 := alSet st.1 key ⟨count, startDate, text⟩
            if threshold ≤ count ∧ key ∉ st.2.1 then
              (next2, st.2.1 ++ [key],
               st.2.2 ++ [⟨text, dailyFolder ++ str "/" ++ startDate ++ str ".md",
                           mkReason count, questionText⟩])
            else (next2, st.2.1, st.2.2)) acc).1 k = alGet acc.1 k) := by
  intro m
  induction m with
  | nil => intro _ _ acc; exact ⟨rfl, Iff.rfl, rfl⟩
  | cons hd tl ih =>
    intro hks hwf acc
    have hk : hd.1 ≠ k := hks hd (List.mem_cons_self hd tl)
    have hn : normalizeTaskText hd.2 = hd.1 := hwf hd (List.mem_cons_self hd tl)
    have hks' : ∀ p ∈ tl, p.1 ≠ k := fun p hp => hks p (List.mem_cons_of_mem hd hp)
    have hwf' : ∀ p ∈ tl, normalizeTaskText p.2 = p.1 :=
      fun p hp => hwf p (List.mem_cons_of_mem hd hp)
    simp only [List.foldl_cons]
    by_cases hc : threshold ≤ (match alGet prevStreaks hd.1 with
        | some s => s.count + 1 | none => 1) ∧ hd.1 ∉ acc.2.1
    · have step := ih hks' hwf'
        (alSet acc.1 hd.1
          ⟨(match alGet prevStreaks hd.1 with | some s => s.count + 1 | none => 1),
           (match alGet prevStreaks hd.1 with | some s => s.startDate | none => agendaDate),
           hd.2⟩,
         acc.2.1 ++ [hd.1],
         acc.2.2 ++ [⟨hd.2,
           dailyFolder ++ str "/" ++
             (match alGet prevStreaks hd.1 with
              | some s => s.startDate | none => agendaDate) ++ str ".md",
           mkReason (match alGet prevStreaks hd.1 with
              | some s => s.count + 1 | none => 1), questionText⟩])
      simp only [if_pos hc] at step ⊢
      refine ⟨?_, ?_, ?_⟩
      · rw [step.1, List.filter_append]
        have hkb : (normalizeTaskText hd.2 == k) = false := by
          rw [hn]
          exact beq_eq_false_iff_ne.mpr hk
        simp [List.filter_singleton, keyOf, hkb]
      · rw [step.2.1]
        constructor
        · intro hmem
          rcases List.mem_append.mp hmem with h | h
          · exact h
          · exact absurd (List.mem_singleton.mp h) (fun he => hk he.symm)
        · exact fun hmem => List.mem_append.mpr (Or.inl hmem)
      · rw [step.2.2]
        exact alGet_alSet_other _ _ _ _ (fun he => hk he.symm)
    · have step := ih hks' hwf'
        (alSet acc.1 hd.1
          ⟨(match alGet prevStreaks hd.1 with | some s => s.count + 1 | none => 1),
           (match alGet prevStreaks hd.1 with | some s => s.startDate | none => agendaDate),
           hd.2⟩,
         acc.2.1, acc.2.2)
      simp only [if_neg hc] at step ⊢
      refine ⟨step.1, step.2.1, ?_⟩
      rw [step.2.2]
      exact alGet_alSet_other _ _ _ _ (fun he => hk he.symm)


lemma streak_fold_khit (dailyFolder : Str) (threshold : Nat) (mkReason : Nat → Str)
    (prevStreaks : List (Str × Streak)) (agendaDate : Str) (k txt : Str)
    (hn : normalizeTaskText txt = k) :
    ∀ (m1 m2 : List (Str × Str)),
      (∀ p ∈ m1, p.1 ≠ k) → (∀ p ∈ m1, normalizeTaskText p.2 = p.1) →
      (∀ p ∈ m2, p.1 ≠ k) → (∀ p ∈ m2, normalizeTaskText p.2 = p.1) →
    ∀ (acc : List (Str × Streak) × List Str × List UnclearItem),
      ((threshold ≤ (match alGet prevStreaks k with | some s => s.count + 1 | none => 1) ∧
          k ∉ acc.2.1) →
        ((m1 ++ (k, txt) :: m2).foldl
          (fun st entry =>
            let key := entry.1
            let text := entry.2
            let prev := alGet prevStreaks key
            let count := match prev with | some s => s.count + 1 | none => 1
            let startDate := match prev with | some s => s.startDate | none => agendaDate
            let next2 := alSet st.1 key ⟨count, startDate, text⟩
            if threshold ≤ count ∧ key ∉ st.2.1 then
              (next2, st.2.1 ++ [key],
               st.2.2 ++ [⟨text, dailyFolder ++ str "/" ++ startDate ++ str ".md",
                           mkReason count, questionText⟩])
            else (next2, st.2.1, st.2.2)) acc).2.2.filter (fun u => keyOf u == k) =
          acc.2.2.filter (fun u => keyOf u == k) ++
            [⟨txt,
              dailyFolder ++ str "/" ++
                (match alGet prevStreaks k with
                 | some s => s.startDate | none => agendaDate) ++ str ".md",
              mkReason (match alGet prevStreaks k with
                 | some s => s.count + 1 | none => 1), questionText⟩]) ∧
      (¬(threshold ≤ (match alGet prevStreaks k with | some s => s.count + 1 | none => 1) ∧
          k ∉ acc.2.1) →
        ((m1 ++ (k, txt) :: m2).foldl
          (fun st entry =>
            let key := entry.1
            let text := entry.2
            let prev := alGet prevStreaks key
            let count := match prev with | some s => s.count + 1 | none => 1
            let startDate := match prev with | some s => s.startDate | none => agendaDate
            let next2 := alSet st.1 key ⟨count, startDate, text⟩
            if threshold ≤ count ∧ key ∉ st.2.1 then
              (next2, st.2.1 ++ [key],
               st.2.2 ++ [⟨text, dailyFolder ++ str "/" ++ startDate ++ str ".md",
                           mkReason count, questionText⟩])
            else (next2, st.2.1, st.2.2)) acc).2.2.filter (fun u => keyOf u == k) =
          acc.2.2.filter (fun u => keyOf u == k) ∧
        ((k ∈ ((m1 ++ (k, txt) :: m2).foldl
          (fun st entry =>
            let key := entry.1
            let text := entry.2
            let prev := alGet prevStreaks key
            let count := match prev with | some s => s.count + 1 | none => 1
            let startDate := match prev with | some s => s.startDate | none => agendaDate
            let next2 := alSet st.1 key ⟨count, startDate, text⟩
            if threshold ≤ count ∧ key ∉ st.2.1 then
              (next2, st.2.1 ++ [key],
               st.2.2 ++ [⟨text, dailyFolder ++ str "/" ++ startDate ++ str ".md",
                           mkReason count, questionText⟩])
            else (next2, st.2.1, st.2.2)) acc).2.1) ↔ k ∈ acc.2.1)) ∧
      (alGet ((m1 ++ (k, txt) :: m2).foldl
          (fun st entry =>
            let key := entry.1
            let text := entry.2
            let prev := alGet prevStreaks key
            let count := match prev with | some s => s.count + 1 | none => 1
            let startDate := match prev with | some s => s.startDate | none => agendaDate
            let next2 := alSet st.1 key ⟨count, startDate, text⟩
            if threshold ≤ count ∧ key ∉ st.2.1 then
              (next2, st.2.1 ++ [key],
               st.2.2 ++ [⟨text, dailyFolder ++ str "/" ++ startDate ++ str ".md",
                           mkReason count, questionText⟩])
            else (next2, st.2.1, st.2.2)) acc).1 k =
        some ⟨(match alGet prevStreaks k with | some s => s.count + 1 | none => 1),
              (match alGet prevStreaks k with | some s => s.startDate | none => agendaDate),
              txt⟩) := by
  intro m1
  induction m1 with
  | nil =>
    intro m2 _ _ hks2 hwf2 acc
    simp only [List.nil_append, List.foldl_cons]
    by_cases hcnd : threshold ≤ (match alGet prevStreaks k with
        | some s => s.count + 1 | none => 1) ∧ k ∉ acc.2.1
    · have hk2 := streak_fold_kfree dailyFolder threshold mkReason prevStreaks agendaDate k
        m2 hks2 hwf2
        (alSet acc.1 k
          ⟨(match alGet prevStreaks k with | some s => s.count + 1 | none => 1),
           (match alGet prevStreaks k with | some s => s.startDate | none => agendaDate),
           txt⟩,
         acc.2.1 ++ [k],
         acc.2.2 ++ [⟨txt,
           dailyFolder ++ str "/" ++
             (match alGet prevStreaks k with
              | some s => s.startDate | none => agendaDate) ++ str ".md",
           mkReason (match alGet prevStreaks k with
              | some s => s.count + 1 | none => 1), questionText⟩])
      simp only [if_pos hcnd] at hk2 ⊢
      refine ⟨fun _ => ?_, fun hno => absurd hcnd hno, ?_⟩
      · rw [hk2.1, List.filter_append]
        simp [List.filter_singleton, keyOf, hn]
      · rw [hk2.2.2]
        exact alGet_alSet_self _ _ _
    · have hk2 := streak_fold_kfree dailyFolder threshold mkReason prevStreaks agendaDate k
        m2 hks2 hwf2
        (alSet acc.1 k
          ⟨(match alGet prevStreaks k with | some s => s.count + 1 | none => 1),
           (match alGet prevStreaks k with | some s => s.startDate | none => agendaDate),
           txt⟩,
         acc.2.1, acc.2.2)
      simp only [if_neg hcnd] at hk2 ⊢
      refine ⟨fun hyes => absurd hyes hcnd, fun _ => ⟨hk2.1, hk2.2.1⟩, ?_⟩
      rw [hk2.2.2]
      exact alGet_alSet_self _ _ _
  | cons hd m1' ih =>
    intro m2 hks1 hwf1 hks2 hwf2 acc
    have hk : hd.1 ≠ k := hks1 hd (List.mem_cons_self hd m1')
    have hnhd : normalizeTaskText hd.2 = hd.1 := hwf1 hd (List.mem_cons_self hd m1')
    have hks1' : ∀ p ∈ m1', p.1 ≠ k := fun p hp => hks1 p (List.mem_cons_of_mem hd hp)
    have hwf1' : ∀ p ∈ m1', normalizeTaskText p.2 = p.1 :=
      fun p hp => hwf1 p (List.mem_cons_of_mem hd hp)
    simp only [List.cons_append, List.foldl_cons]
    by_cases hcnd : threshold ≤ (match alGet prevStreaks hd.1 with
        | some s => s.count + 1 | none => 1) ∧ hd.1 ∉ acc.2.1
    · have ih' := ih m2 hks1' hwf1' hks2 hwf2
        (alSet acc.1 hd.1
          ⟨(match alGet prevStreaks hd.1 with | some s => s.count + 1 | none => 1),
           (match alGet prevStreaks hd.1 with | some s => s.startDate | none => agendaDate),
           hd.2⟩,
         acc.2.1 ++ [hd.1],
         acc.2.2 ++ [⟨hd.2,
           dailyFolder ++ str "/" ++
             (match alGet prevStreaks hd.1 with
              | some s => s.startDate | none => agendaDate) ++ str ".md",
           mkReason (match alGet prevStreaks hd.1 with
              | some s => s.count + 1 | none => 1), questionText⟩])
      simp only [if_pos hcnd] at ih' ⊢
      have hbf : (hd.1 == k) = false := beq_eq_false_iff_ne.mpr hk
      have hmemiff : k ∈ acc.2.1 ++ [hd.1] ↔ k ∈ acc.2.1 := by
        constructor
        · intro hmem
          rcases List.mem_append.mp hmem with h | h
          · exact h
          · exact absurd (List.mem_singleton.mp h) (fun he => hk he.symm)
        · exact fun hmem => List.mem_append.mpr (Or.inl hmem)
      have hfilhd : (acc.2.2 ++ [(⟨hd.2,
          dailyFolder ++ str "/" ++
            (match alGet prevStreaks hd.1 with
             | some s => s.startDate | none => agendaDate) ++ str ".md",
          mkReason (match alGet prevStreaks hd.1 with
             | some s => s.count + 1 | none => 1), questionText⟩ : UnclearItem)]).filter
            (fun u => keyOf u == k) = acc.2.2.filter (fun u => keyOf u == k) := by
        rw [List.filter_append]
        simp [List.filter_singleton, keyOf, hnhd, hbf]
      refine ⟨?_, ?_, ih'.2.2⟩
      · intro hyes
        have harg : (threshold ≤ (match alGet prevStreaks k with
            | some s => s.count + 1 | none => 1)) ∧
            k ∉ acc.2.1 ++ [hd.1] :=
          ⟨hyes.1, fun hmem => hyes.2 (hmemiff.mp hmem)⟩
        rw [ih'.1 harg, hfilhd]
      · intro hno
        have hno' : ¬(threshold ≤ (match alGet prevStreaks k with
            | some s => s.count + 1 | none => 1) ∧
            k ∉ acc.2.1 ++ [hd.1]) := by
          intro hyes
          exact hno ⟨hyes.1, fun hmem => hyes.2 (hmemiff.mpr hmem)⟩
        have := ih'.2.1 hno'
        exact ⟨by rw [this.1, hfilhd], by rw [this.2]; exact hmemiff⟩
    · have ih' := ih m2 hks1' hwf1' hks2 hwf2
        (alSet acc.1 hd.1
          ⟨(match alGet prevStreaks hd.1 with | some s => s.count + 1 | none => 1),
           (match alGet prevStreaks hd.1 with | some s => s.startDate | none => agendaDate),
           hd.2⟩,
         acc.2.1, acc.2.2)
      simp only [if_neg hcnd] at ih' ⊢
      exact ih'


lemma alGet_eq_none_key_not_mem {β : Type} (m : List (Str × β)) (k : Str)
    (h : alGet m k = none) : ∀ p ∈ m, p.1 ≠ k := by
  induction m with
  | nil => simp
  | cons hd tl ih =>
    intro p hp
    by_cases hk : hd.1 = k
    · rw [alGet, if_pos hk] at h
      exact absurd h (by simp)
    · rw [alGet, if_neg hk] at h
      rcases List.mem_cons.mp hp with h3 | h3
      · exact h3 ▸ hk
      · exact ih h p h3

lemma processAgenda_k (dailyFolder : Str) (st : DetectState) (ag : DailyAgenda) (k : Str)
    (hNoReset : (match st.prevDate with
       | some d => !d.isEmpty && !areConsecutiveDates d ag.date
       | none => false) = false)
    (htask : ∃ task ∈ ag.tasks, task.complete = false ∧ normalizeTaskText task.text = k)
    (hnofocus : ∀ task ∈ ag.tasks, task.complete = false →
       normalizeTaskText task.text = k → task.sect ≠ str "Focus today")
    (c : Nat)
    (hc : c = (match alGet st.streaks k with | some s => s.count + 1 | none => 1)) :
    ((3 ≤ c ∧ k ∉ st.flagged) →
       ∃ txt sd, (processAgenda dailyFolder st ag).results.filter (fun u => keyOf u == k) =
         st.results.filter (fun u => keyOf u == k) ++
           [⟨txt, dailyFolder ++ str "/" ++ sd ++ str ".md", reasonAll c, questionText⟩]) ∧
    (¬(3 ≤ c ∧ k ∉ st.flagged) →
       (processAgenda dailyFolder st ag).results.filter (fun u => keyOf u == k) =
         st.results.filter (fun u => keyOf u == k) ∧
       ((k ∈ (processAgenda dailyFolder st ag).flagged) ↔ k ∈ st.flagged)) ∧
    (∃ txt2 sd2, alGet (processAgenda dailyFolder st ag).streaks k = some ⟨c, sd2, txt2⟩) ∧
    (processAgenda dailyFolder st ag).prevDate = some ag.date := by
  obtain ⟨txt, hgetD⟩ : ∃ v, alGet (buildDayTasks ag.tasks).1 k = some v :=
    buildDayTasks_all_some k ag.tasks ([], []) (Or.inl htask)
  have hndD : ((buildDayTasks ag.tasks).1.map Prod.fst).Nodup :=
    buildDayTasks_keys_nodup ag.tasks
  have hwfD := buildDayTasks_wf ag.tasks
  have hfocusD : alGet (buildDayTasks ag.tasks).2 k = none :=
    buildDayTasks_focus_none k ag.tasks ([], []) rfl hnofocus
  have hfocusKeys : ∀ p ∈ (buildDayTasks ag.tasks).2, p.1 ≠ k :=
    alGet_eq_none_key_not_mem _ _ hfocusD
  obtain ⟨m1, m2, hsplit, h1, h2⟩ := alGet_split _ k txt hgetD hndD
  have hwf1 : ∀ p ∈ m1, normalizeTaskText p.2 = p.1 := by
    intro p hp
    exact hwfD.1 p (by rw [hsplit]; exact List.mem_append.mpr (Or.inl hp))
  have hwf2 : ∀ p ∈ m2, normalizeTaskText p.2 = p.1 := by
    intro p hp
    exact hwfD.1 p
      (by rw [hsplit]; exact List.mem_append.mpr (Or.inr (List.mem_cons_of_mem _ hp)))
  have hn : normalizeTaskText txt = k := by
    have := hwfD.1 (k, txt)
      (by rw [hsplit]; exact List.mem_append.mpr (Or.inr (List.mem_cons_self _ _)))
    exact this
  have hsp1 : streakPass dailyFolder 3 reasonAll (buildDayTasks ag.tasks).1 st.streaks
      ag.date st.flagged st.results =
      (m1 ++ (k, txt) :: m2).foldl
        (fun st2 entry =>
          let key := entry.1
          let text := entry.2
          let prev := alGet st.streaks key
          let count := match prev with | some s => s.count + 1 | none => 1
          let startDate := match prev with | some s => s.startDate | none => ag.date
          let next2 := alSet st2.1 key ⟨count, startDate, text⟩
          if 3 ≤ count ∧ key ∉ st2.2.1 then
            (next2, st2.2.1 ++ [key],
             st2.2.2 ++ [⟨text, dailyFolder ++ str "/" ++ startDate ++ str ".md",
                         reasonAll count, questionText⟩])
          else (next2, st2.2.1, st2.2.2)) ([], st.flagged, st.results) := by
    unfold streakPass
    rw [hsplit]
  have hkh := streak_fold_khit dailyFolder 3 reasonAll st.streaks ag.date k txt hn
    m1 m2 h1 hwf1 h2 hwf2 ([], st.flagged, st.results)
  rw [← hsp1] at hkh
  have hpA : processAgenda dailyFolder st ag =
      { flagged := (streakPass dailyFolder 2 reasonFocus (buildDayTasks ag.tasks).2
          st.focusStreaks ag.date
          (streakPass dailyFolder 3 reasonAll (buildDayTasks ag.tasks).1 st.streaks
            ag.date st.flagged st.results).2.1
          (streakPass dailyFolder 3 reasonAll (buildDayTasks ag.tasks).1 st.streaks
            ag.date st.flagged st.results).2.2).2.1,
        results := (streakPass dailyFolder 2 reasonFocus (buildDayTasks ag.tasks).2
          st.focusStreaks ag.date
          (streakPass dailyFolder 3 reasonAll (buildDayTasks ag.tasks).1 st.streaks
            ag.date st.flagged st.results).2.1
          (streakPass dailyFolder 3 reasonAll (buildDayTasks ag.tasks).1 st.streaks
            ag.date st.flagged st.results).2.2).2.2,
        prevDate := some ag.date,
        streaks := (streakPass dailyFolder 3 reasonAll (buildDayTasks ag.tasks).1
          st.streaks ag.date st.flagged st.results).1,
        focusStreaks := (streakPass dailyFolder 2 reasonFocus (buildDayTasks ag.tasks).2
          st.focusStreaks ag.date
          (streakPass dailyFolder 3 reasonAll (buildDayTasks ag.tasks).1 st.streaks
            ag.date st.flagged st.results).2.1
          (streakPass dailyFolder 3 reasonAll (buildDayTasks ag.tasks).1 st.streaks
            ag.date st.flagged st.results).2.2).1 } := by
    simp only [processAgenda, hNoReset, Bool.false_eq_true, if_false]
  have hkf := streak_fold_kfree dailyFolder 2 reasonFocus st.focusStreaks ag.date k
    (buildDayTasks ag.tasks).2 hfocusKeys hwfD.2
    ([],
     (streakPass dailyFolder 3 reasonAll (buildDayTasks ag.tasks).1 st.streaks
       ag.date st.flagged st.results).2.1,
     (streakPass dailyFolder 3 reasonAll (buildDayTasks ag.tasks).1 st.streaks
       ag.date st.flagged st.results).2.2)
  have hsp2 : streakPass dailyFolder 2 reasonFocus (buildDayTasks ag.tasks).2
      st.focusStreaks ag.date
      (streakPass dailyFolder 3 reasonAll (buildDayTasks ag.tasks).1 st.streaks
        ag.date st.flagged st.results).2.1
      (streakPass dailyFolder 3 reasonAll (buildDayTasks ag.tasks).1 st.streaks
        ag.date st.flagged st.results).2.2 =
      ((buildDayTasks ag.tasks).2.foldl
        (fun st2 entry =>
          let key := entry.1
          let text := entry.2
          let prev := alGet st.focusStreaks key
          let count := match prev with | some s => s.count + 1 | none => 1
          let startDate := match prev with | some s => s.startDate | none => ag.date
          let next2 := alSet st2.1 key ⟨count, startDate, text⟩
          if 2 ≤ count ∧ key ∉ st2.2.1 then
            (next2, st2.2.1 ++ [key],
             st2.2.2 ++ [⟨text, dailyFolder ++ str "/" ++ startDate ++ str ".md",
                         reasonFocus count, questionText⟩])
          else (next2, st2.2.1, st2.2.2))
        ([],
         (streakPass dailyFolder 3 reasonAll (buildDayTasks ag.tasks).1 st.streaks
           ag.date st.flagged st.results).2.1,
         (streakPass dailyFolder 3 reasonAll (buildDayTasks ag.tasks).1 st.streaks
           ag.date st.flagged st.results).2.2)) := by
    unfold streakPass
    rfl
  rw [← hsp2] at hkf
  subst hc
  refine ⟨?_, ?_, ?_, ?_⟩
  · intro hyes
    refine ⟨txt, (match alGet st.streaks k with
      | some s => s.startDate | none => ag.date), ?_⟩
    rw [hpA]
    simp only
    rw [hkf.1]
    exact hkh.1 hyes
  · intro hno
    rw [hpA]
    simp only
    constructor
    · rw [hkf.1]
      exact (hkh.2.1 hno).1
    · rw [hkf.2.1]
      exact (hkh.2.1 hno).2
  · refine ⟨txt, (match alGet st.streaks k with
      | some s => s.startDate | none => ag.date), ?_⟩
    rw [hpA]
    simp only
    exact hkh.2.2
  · rw [hpA]


/-- Claim C5 (counterexample): three consecutive-day snapshots all holding
the incomplete task in the "Focus today" section yield exactly one
UnclearItem, but its reason comes from the two-day Focus rule, which fires
first, not the three-day rule named by the claim. -/
theorem detect_three_day_focus_cex :
    (detectUnclearItems (str "Daily")
        [writeReportSnap "2024-01-03" "Focus today",
         writeReportSnap "2024-01-02" "Focus today",
         writeReportSnap "2024-01-01" "Focus today"]).map (fun u => u.reason) ≠
      [str "Incomplete for 3 consecutive days"] ∧
    (detectUnclearItems (str "Daily")
        [writeReportSnap "2024-01-03" "Focus today",
         writeReportSnap "2024-01-02" "Focus today",
         writeReportSnap "2024-01-01" "Focus today"]).map (fun u => u.reason) =
      [str "In \"Focus today\" for 2 consecutive days without completion"] :=
  ⟨by decide, by decide⟩

/-- Claim C5 (amended): for every task text and three snapshots on
consecutive calendar days ordered most recent to oldest, each containing
the text as an incomplete task, and such that no incomplete task sharing
its normalized text sits in the "Focus today" section of any snapshot
(otherwise the two-day Focus rule fires first with its own reason),
detectUnclearItems returns exactly one UnclearItem for that normalized
text, and its reason is "Incomplete for 3 consecutive days". -/
theorem detect_three_day_streak
    (dailyFolder t d0 d1 d2 : Str) (T0 T1 T2 : List Task)
    (hc01 : areConsecutiveDates d0 d1 = true)
    (hc12 : areConsecutiveDates d1 d2 = true)
    (hin0 : ∃ task ∈ T0, task.text = t ∧ task.complete = false)
    (hin1 : ∃ task ∈ T1, task.text = t ∧ task.complete = false)
    (hin2 : ∃ task ∈ T2, task.text = t ∧ task.complete = false)
    (hnf : ∀ task ∈ T0 ++ T1 ++ T2, task.complete = false →
       normalizeTaskText task.text = normalizeTaskText t →
       task.sect ≠ str "Focus today") :
    ((detectUnclearItems dailyFolder [⟨d0, T0⟩, ⟨d1, T1⟩, ⟨d2, T2⟩]).filter
        (fun u => keyOf u == normalizeTaskText t)).map (fun u => u.reason) =
      [str "Incomplete for 3 consecutive days"] := by
  have hdetect : detectUnclearItems dailyFolder [⟨d0, T0⟩, ⟨d1, T1⟩, ⟨d2, T2⟩] =
      (processAgenda dailyFolder (processAgenda dailyFolder (processAgenda dailyFolder
        ⟨[], [], none, [], []⟩ ⟨d0, T0⟩) ⟨d1, T1⟩) ⟨d2, T2⟩).results := rfl
  rw [hdetect]
  have hmk0 : ∀ task ∈ T0, task ∈ T0 ++ T1 ++ T2 :=
    fun task h => List.mem_append.mpr (Or.inl (List.mem_append.mpr (Or.inl h)))
  have hmk1 : ∀ task ∈ T1, task ∈ T0 ++ T1 ++ T2 :=
    fun task h => List.mem_append.mpr (Or.inl (List.mem_append.mpr (Or.inr h)))
  have hmk2 : ∀ task ∈ T2, task ∈ T0 ++ T1 ++ T2 :=
    fun task h => List.mem_append.mpr (Or.inr h)
  have htask0 : ∃ task ∈ T0, task.complete = false ∧
      normalizeTaskText task.text = normalizeTaskText t := by
    obtain ⟨task, hm, ht, hcp⟩ := hin0
    exact ⟨task, hm, hcp, by rw [ht]⟩
  have htask1 : ∃ task ∈ T1, task.complete = false ∧
      normalizeTaskText task.text = normalizeTaskText t := by
    obtain ⟨task, hm, ht, hcp⟩ := hin1
    exact ⟨task, hm, hcp, by rw [ht]⟩
  have htask2 : ∃ task ∈ T2, task.complete = false ∧
      normalizeTaskText task.text = normalizeTaskText t := by
    obtain ⟨task, hm, ht, hcp⟩ := hin2
    exact ⟨task, hm, hcp, by rw [ht]⟩
  have day0 := processAgenda_k dailyFolder ⟨[], [], none, [], []⟩ ⟨d0, T0⟩
    (normalizeTaskText t) rfl htask0 (fun task hm => hnf task (hmk0 task hm)) 1 rfl
  obtain ⟨hEmit0, hNo0, ⟨txt0, sd0, hget0⟩, hprev0⟩ := day0
  have hno0 : ¬((3 ≤ 1) ∧ (normalizeTaskText t) ∉
      (⟨[], [], none, [], []⟩ : DetectState).flagged) := by
    intro h
    omega
  obtain ⟨hfil1, hflag1⟩ := hNo0 hno0
  have hnotin1 : (normalizeTaskText t) ∉
      (processAgenda dailyFolder ⟨[], [], none, [], []⟩ ⟨d0, T0⟩).flagged := by
    intro h
    exact absurd (hflag1.mp h) (List.not_mem_nil _)
  have hNoReset1 : (match (processAgenda dailyFolder ⟨[], [], none, [], []⟩
      ⟨d0, T0⟩).prevDate with
      | some d => !d.isEmpty && !areConsecutiveDates d
          (⟨d1, T1⟩ : DailyAgenda).date
      | none => false) = false := by
    rw [hprev0]
    simp [hc01]
  have day1 := processAgenda_k dailyFolder
    (processAgenda dailyFolder ⟨[], [], none, [], []⟩ ⟨d0, T0⟩) ⟨d1, T1⟩
    (normalizeTaskText t) hNoReset1 htask1
    (fun task hm => hnf task (hmk1 task hm)) 2 (by rw [hget0])
  obtain ⟨hEmit1, hNo1, ⟨txt1, sd1, hget1⟩, hprev1⟩ := day1
  have hno1 : ¬((3 ≤ 2) ∧ (normalizeTaskText t) ∉
      (processAgenda dailyFolder ⟨[], [], none, [], []⟩ ⟨d0, T0⟩).flagged) := by
    intro h
    omega
  obtain ⟨hfil2, hflag2⟩ := hNo1 hno1
  have hnotin2 : (normalizeTaskText t) ∉
      (processAgenda dailyFolder (processAgenda dailyFolder ⟨[], [], none, [], []⟩
        ⟨d0, T0⟩) ⟨d1, T1⟩).flagged := by
    intro h
    exact hnotin1 (hflag2.mp h)
  have hNoReset2 : (match (processAgenda dailyFolder (processAgenda dailyFolder
      ⟨[], [], none, [], []⟩ ⟨d0, T0⟩) ⟨d1, T1⟩).prevDate with
      | some d => !d.isEmpty && !areConsecutiveDates d
          (⟨d2, T2⟩ : DailyAgenda).date
      | none => false) = false := by
    rw [hprev1]
    simp [hc12]
  have day2 := processAgenda_k dailyFolder
    (processAgenda dailyFolder (processAgenda dailyFolder ⟨[], [], none, [], []⟩
      ⟨d0, T0⟩) ⟨d1, T1⟩) ⟨d2, T2⟩
    (normalizeTaskText t) hNoReset2 htask2
    (fun task hm => hnf task (hmk2 task hm)) 3 (by rw [hget1])
  obtain ⟨hEmit2, _, _, _⟩ := day2
  obtain ⟨txt2, sd2, hfil3⟩ := hEmit2 ⟨le_refl 3, hnotin2⟩
  rw [hfil3, hfil2, hfil1]
  rfl


/-- Witness for the amended claim C5, at three concrete consecutive-day
snapshots holding the incomplete task outside the Focus-today section. -/
theorem detect_three_day_streak_witness :
    ((detectUnclearItems (str "Daily")
        [⟨str "2024-01-03", [writeReportTask "Misc"]⟩,
         ⟨str "2024-01-02", [writeReportTask "Misc"]⟩,
         ⟨str "2024-01-01", [writeReportTask "Misc"]⟩]).filter
        (fun u => keyOf u == normalizeTaskText (str "Write report"))).map
      (fun u => u.reason) = [str "Incomplete for 3 consecutive days"] :=
  detect_three_day_streak (str "Daily") (str "Write report")
    (str "2024-01-03") (str "2024-01-02") (str "2024-01-01")
    [writeReportTask "Misc"] [writeReportTask "Misc"] [writeReportTask "Misc"]
    (by decide) (by decide)
    ⟨writeReportTask "Misc", by decide, by decide, by decide⟩
    ⟨writeReportTask "Misc", by decide, by decide, by decide⟩
    ⟨writeReportTask "Misc", by decide, by decide, by decide⟩
    (by decide)

end DailyFocus
